import Mathlib

/-!
Verification development for the timezone-aware bucketing and aggregation
engine of the FreeVinesStats repository (`src/utils/analytics.ts`).

The engine's only timezone-aware dependency is a primitive that formats an
absolute instant into civil fields for the fixed zone America/Los_Angeles
(`getTimeZoneOffsetMs`, built on `Intl.DateTimeFormat`).  That primitive is
an external collaborator, so the embedding is parametrized over the offset
function it induces, `tz : Int → Int` (milliseconds of offset at a given
instant: civil = UTC + offset).  Concrete instantiations used in witnesses
model the real zone locally around a DST transition (constant offsets with a
single step), matching the behaviour of the real primitive on those ranges.

All timestamps and counts are integers (JS numbers are exact on these
ranges); `Math.floor(x / y)` is embedded as `Int.fdiv`, `Math.round` as
`⌊x + 1/2⌋` on `ℚ`, and the `Date` UTC accessors on a local-shifted epoch
timestamp are embedded by their standard Gregorian-calendar arithmetic.
`Date.now()` is threaded as an explicit `now` parameter.  Loops are embedded
as fuel-indexed structural recursions whose fuel provably dominates the
number of iterations of the source loop, so the functions compute exactly
what the loops compute.
-/

/-! ## Constants (analytics.ts lines 513-517) -/

def MINUTE_MS : Int := 60 * 1000
def HOUR_MS : Int := 60 * MINUTE_MS
def DAY_MS : Int := 24 * HOUR_MS
def WEEK_MS : Int := 7 * DAY_MS
def MAX_SAFE_INTEGER : Int := 9007199254740991

/-! ## Data model (types.ts and analytics.ts line 520) -/

/-- `HistoryItem` from `types.ts`: `t` is absolute epoch ms; `ai` with legacy
alias `encore` counts one category; `last_chance` a second; `zero_etv` an
optional third. -/
structure HistoryItem where
  t : Int
  ai : Option Int := none
  encore : Option Int := none
  last_chance : Int := 0
  zero_etv : Option Int := none
deriving DecidableEq, Repr, Inhabited

/-- `OffsetSegment = { start, end, offset }`; the source's `end` field is
called `stop` here because `end` is a Lean keyword. -/
structure OffsetSegment where
  start : Int
  stop : Int
  offset : Int
deriving DecidableEq, Repr, Inhabited

/-- `ChartDataPointRaw`: one bucket's absolute start instant and summed
counts (the presentation-only `label`/`fullDate` fields attached by
`formatChartPoints` are excluded; they copy `date` and the sums verbatim). -/
structure ChartDataPointRaw where
  date : Int
  ai : Int
  lastChance : Int
  zeroEtv : Int
  total : Int
deriving DecidableEq, Repr, Inhabited

/-- `getAiCount` (line 799): `item.ai ?? item.encore ?? 0`. -/
def getAiCount (item : HistoryItem) : Int :=
  match item.ai with
  | some v => v
  | none =>
    match item.encore with
    | some v => v
    | none => 0

/-- `getZeroEtvCount` (line 800): `item.zero_etv ?? 0`. -/
def getZeroEtvCount (item : HistoryItem) : Int :=
  item.zero_etv.getD 0

/-! ## Offset segment builder (lines 573-614) -/

/-- Loop body of `findOffsetTransition` (lines 573-588): binary search for a
transition instant inside `[lo, hi]` narrowing until the window is at most
one minute wide.  The window at least halves every iteration (the midpoint is
strictly between `lo` and `hi` whenever the loop runs), so from the only
call-site width of one day (`2^27` ish ms) the loop runs fewer than 30 times;
fuel 64 therefore never runs out and the recursion computes exactly what the
`while` loop computes. -/
def findTransitionAux (tz : Int → Int) (offset : Int) : Nat → Int → Int → Int
  | 0, _, hi => hi
  | fuel + 1, lo, hi =>
    if hi - lo ≤ MINUTE_MS then hi
    else
      let mid := Int.fdiv (lo + hi) 2
      if tz mid = offset then findTransitionAux tz offset fuel mid hi
      else findTransitionAux tz offset fuel lo mid

/-- `findOffsetTransition(start, end, offset)` (lines 573-588). -/
def findOffsetTransition (tz : Int → Int) (start stop offset : Int) : Int :=
  findTransitionAux tz offset 64 start stop

/-- Loop body of `buildOffsetSegments` (lines 598-610): sample the offset at
the start of each successive 24-hour window; fuel is the exact number of
iterations `⌊(end - start) / DAY_MS⌋` of the source loop
(`while (cursor + DAY_MS <= end)` starting at `cursor = start` and stepping
by `DAY_MS`). -/
def buildSegsAux (tz : Int → Int) (stop : Int) :
    Nat → Int → Int → Int → List OffsetSegment
  | 0, _, segmentStart, currentOffset => [⟨segmentStart, stop + 1, currentOffset⟩]
  | n + 1, cursor, segmentStart, currentOffset =>
    let next := cursor + DAY_MS
    let nextOffset := tz next
    if nextOffset = currentOffset then
      buildSegsAux tz stop n next segmentStart currentOffset
    else
      let transition := findOffsetTransition tz cursor next currentOffset
      ⟨segmentStart, transition, currentOffset⟩ ::
        buildSegsAux tz stop n next transition nextOffset

/-- `buildOffsetSegments(startTs, endTs)` (lines 590-614). -/
def buildOffsetSegments (tz : Int → Int) (startTs endTs : Int) : List OffsetSegment :=
  let s := min startTs endTs
  let e := max startTs endTs
  buildSegsAux tz e (Int.fdiv (e - s) DAY_MS).toNat s s (tz s)

/-! ## Boundary resolver (lines 616-641) -/

/-- `segments[0]?.offset ?? 0`. -/
def headOffsetD : List OffsetSegment → Int
  | [] => 0
  | s :: _ => s.offset

/-- Reverse linear scan of `getOffsetAt` (lines 616-623): the recursion gives
priority to later list elements, i.e. returns the offset of the last segment
whose `start` is `≤ ts`, exactly as the downward `for` loop does. -/
def findFromEnd (ts : Int) : List OffsetSegment → Option Int
  | [] => none
  | s :: rest =>
    match findFromEnd ts rest with
    | some o => some o
    | none => if s.start ≤ ts then some s.offset else none

/-- `getOffsetAt(ts, segments)` (lines 616-623). -/
def getOffsetAt (ts : Int) (segments : List OffsetSegment) : Int :=
  match findFromEnd ts segments with
  | some o => o
  | none => headOffsetD segments

/-- Loop of `getOffsetForTs` (lines 625-630):
`while (i < segments.length - 1 && ts >= segments[i].end) i += 1`.  Fuel
`segments.length` dominates the iteration count (the index strictly
increases and stays below `length - 1`). -/
def advanceIdx (ts : Int) (segments : List OffsetSegment) : Nat → Nat → Nat
  | 0, i => i
  | fuel + 1, i =>
    if i < segments.length - 1 ∧ (segments.getD i default).stop ≤ ts then
      advanceIdx ts segments fuel (i + 1)
    else i

/-- `getOffsetForTs(ts, segments, indexRef)` (lines 625-630): the mutable
`indexRef` cell is embedded as an explicit in/out cursor, so the function
returns the offset together with the updated cursor. -/
def getOffsetForTs (ts : Int) (segments : List OffsetSegment) (i : Nat) : Int × Nat :=
  let j := advanceIdx ts segments segments.length i
  ((segments.getD j default).offset, j)

/-- The candidate test of `getUtcForLocal` and of the inline `dayKeyToStart`
loop: `candidate >= segment.start && candidate < segment.end` for
`candidate = localTs - segment.offset`. -/
def segMatches (localTs : Int) (s : OffsetSegment) : Bool :=
  decide (s.start ≤ localTs - s.offset) && decide (localTs - s.offset < s.stop)

/-- `getUtcForLocal(localTs, segments)` (lines 632-641): first segment (in
list order) whose offset maps `localTs` back inside the segment's own
interval; fallback `localTs - (segments[0]?.offset ?? 0)`. -/
def getUtcForLocal (localTs : Int) (segments : List OffsetSegment) : Int :=
  match segments.find? (segMatches localTs) with
  | some s => localTs - s.offset
  | none => localTs - headOffsetD segments

/-- The spec's `getLocalOf(ts)`: `ts` plus the offset of the segment
containing `ts`. -/
def getLocalOf (ts : Int) (segments : List OffsetSegment) : Int :=
  ts + getOffsetAt ts segments

/-! ## Civil-field arithmetic on local-shifted timestamps

The source reads civil fields of a local-shifted timestamp through JS `Date`
UTC accessors (`getUTCDay`, `getUTCHours`, ..., lines 823-833 and analogous
blocks).  Those accessors implement proleptic-Gregorian / epoch arithmetic,
embedded here directly: epoch day 0 (1970-01-01) is a Thursday, so
`getUTCDay = (dayNumber + 4) mod 7`, and
`hours*3600000 + minutes*60000 + seconds*1000 + ms = localTs mod DAY_MS`. -/

def localDayNumber (localTs : Int) : Int := Int.fdiv localTs DAY_MS

def localTimeOfDay (localTs : Int) : Int := Int.emod localTs DAY_MS

/-- `new Date(localTs).getUTCDay()` (0 = Sunday). -/
def dayOfWeekUTC (localTs : Int) : Int := Int.emod (localDayNumber localTs + 4) 7

/-- `(dayOfWeek + 6) % 7`: Monday-first weekday index. -/
def mondayIndexOf (localTs : Int) : Int := Int.emod (dayOfWeekUTC localTs + 6) 7

/-- `localTs - (((hours*60+minutes)*60+seconds)*1000 + ms)`. -/
def dayStartLocal (localTs : Int) : Int := localTs - localTimeOfDay localTs

/-- `getWeekStartLocal(localTs)` (lines 823-833): local ISO-week (Monday)
start. -/
def getWeekStartLocal (localTs : Int) : Int :=
  dayStartLocal localTs - mondayIndexOf localTs * DAY_MS

/-- `Math.floor(weekStartLocal / WEEK_MS)`: the `getWeekKey` helper of
`processHeatMaps` (lines 1042-1053). -/
def weekKeyOfLocal (localTs : Int) : Int :=
  Int.fdiv (getWeekStartLocal localTs) WEEK_MS

/-- `new Date(localTs).getUTCHours()`. -/
def hourOfLocal (localTs : Int) : Int :=
  Int.fdiv (localTimeOfDay localTs) HOUR_MS

/-- Gregorian `(year, month, day)` of an epoch day number: the arithmetic
behind `getUTCFullYear` / `getUTCMonth` / `getUTCDate` (standard
era-of-400-years civil-from-days computation). -/
def civilFromDays (z0 : Int) : Int × Int × Int :=
  let z := z0 + 719468
  let era := Int.fdiv z 146097
  let doe := z - era * 146097
  let yoe := Int.fdiv (doe - Int.fdiv doe 1460 + Int.fdiv doe 36524 - Int.fdiv doe 146096) 365
  let y := yoe + era * 400
  let doy := doe - (365 * yoe + Int.fdiv yoe 4 - Int.fdiv yoe 100)
  let mp := Int.fdiv (5 * doy + 2) 153
  let d := doy - Int.fdiv (153 * mp + 2) 5 + 1
  let m := mp + (if mp < 10 then 3 else -9)
  (y + (if m ≤ 2 then 1 else 0), m, d)

/-- `pad2` (line 643). -/
def pad2 (v : Int) : String :=
  if v < 10 then "0" ++ toString v else toString v

/-- The heat-map daily key `` `${year}-${pad2(month)}-${pad2(day)}` ``
(lines 1086-1089). -/
def dateKeyOf (localTs : Int) : String :=
  let c := civilFromDays (localDayNumber localTs)
  let ys := toString c.1
  let ms := pad2 c.2.1
  let ds := pad2 c.2.2
  ys ++ "-" ++ ms ++ "-" ++ ds

/-! ## Median and rounding (lines 792-797) -/

/-- JS `Math.round`: round half toward positive infinity. -/
def jsRound (q : ℚ) : Int := Int.floor (q + 1 / 2)

/-- `Math.round(x * 10) / 10`: rounding to one decimal used by the heat-map
matrices. -/
def round1 (q : ℚ) : ℚ := (jsRound (q * 10) : ℚ) / 10

/-- `calculateMedian(values)` (lines 792-797).  JS numeric `sort` produces
the unique ascending reordering of the values, embedded via
`List.insertionSort`. -/
def calculateMedian (values : List ℚ) : ℚ :=
  if values = [] then 0
  else
    let sorted := List.insertionSort (fun a b => a ≤ b) values
    let mid := sorted.length / 2
    if sorted.length % 2 = 1 then sorted.getD mid 0
    else (sorted.getD (mid - 1) 0 + sorted.getD mid 0) / 2

/-! ## Category filters (lines 938-944, 978-990, 1077-1084) -/

/-- The per-event filter adjustment of `processChartData`
(`if (filter === 'zeroEtv') { aiToAdd = 0; lastChanceToAdd = 0 } else if
(filter === 'afa') { aiToAdd = 0; zeroEtvToAdd = 0 }`), returning the
`(aiToAdd, lastChanceToAdd, zeroEtvToAdd)` triple. -/
def applyChartFilter (filter : String) (ai lastChance zeroEtv : Int) :
    Int × Int × Int :=
  if filter = "zeroEtv" then (0, 0, zeroEtv)
  else if filter = "afa" then (0, lastChance, 0)
  else (ai, lastChance, zeroEtv)

/-- The per-event total of `processHeatMaps` (lines 1077-1084). -/
def heatFilterTotal (filter : String) (item : HistoryItem) : Int :=
  if filter = "all" then getAiCount item + item.last_chance
  else if filter = "zeroEtv" then getZeroEtvCount item
  else if filter = "afa" then item.last_chance
  else 0

/-! ## Event bucketer: `processChartData` (lines 889-1012) -/

/-- `granularity === '15m' ? 15 * MINUTE_MS : granularity === '1h' ? HOUR_MS
: DAY_MS` (line 893). -/
def chartInterval (granularity : String) : Int :=
  if granularity = "15m" then 15 * MINUTE_MS
  else if granularity = "1h" then HOUR_MS else DAY_MS

/-- `history[history.length - 1]` for the nonempty list `first :: rest`. -/
def lastItemOf (first : HistoryItem) (rest : List HistoryItem) : HistoryItem :=
  List.getLastD (first :: rest) first

/-- `endTime = Math.max(Date.now(), history[history.length-1].t)` (line 892),
with `Date.now()` threaded as the explicit `now` parameter. -/
def chartEndTime (now : Int) (first : HistoryItem) (rest : List HistoryItem) : Int :=
  max now (lastItemOf first rest).t

/-- The segment list of the calendar-day path (line 897):
`buildOffsetSegments(history[0].t - DAY_MS, endTime + DAY_MS)`. -/
def chartDaySegments (tz : Int → Int) (now : Int) (first : HistoryItem)
    (rest : List HistoryItem) : List OffsetSegment :=
  buildOffsetSegments tz (first.t - DAY_MS) (chartEndTime now first rest + DAY_MS)

/-- The local day key `Math.floor((t + offset) / DAY_MS)` with the offset
taken from the containing segment (lines 900-901, 931). -/
def dayKeyAt (segments : List OffsetSegment) (t : Int) : Int :=
  Int.fdiv (t + getOffsetAt t segments) DAY_MS

/-- The `dayKeyToStart` computation (lines 904-917): the absolute instant of
a given local midnight, by the same candidate scan as `getUtcForLocal` with
fallback `localMidnight - segments[0].offset`. -/
def dayBucketStart (segments : List OffsetSegment) (key : Int) : Int :=
  let localMidnight := key * DAY_MS
  match segments.find? (segMatches localMidnight) with
  | some s => localMidnight - s.offset
  | none => localMidnight - headOffsetD segments

/-- Inner loop of the fixed-duration path (lines 976-998): consume the
leading events with `t < bucketEnd`, adding the filtered counts of those
with `t ≥ cursor` into the accumulators, and return the sums together with
the unconsumed suffix. -/
def collectFixed (filter : String) (cursor bucketEnd : Int) :
    List HistoryItem → Int → Int → Int → (Int × Int × Int) × List HistoryItem
  | [], a, l, z => ((a, l, z), [])
  | item :: rest, a, l, z =>
    if item.t < bucketEnd then
      if cursor ≤ item.t then
        let add := applyChartFilter filter (getAiCount item) item.last_chance
          (getZeroEtvCount item)
        collectFixed filter cursor bucketEnd rest (a + add.1) (l + add.2.1) (z + add.2.2)
      else
        collectFixed filter cursor bucketEnd rest a l z
    else ((a, l, z), item :: rest)

/-- Outer loop of the fixed-duration path (lines 970-1009):
`while (cursor <= endBucket)` emit one bucket and step `cursor` by the
interval.  Fuel `⌊(endBucket - cursor₀)/interval⌋ + 1` is exactly the number
of iterations when `cursor₀ ≤ endBucket` and at least it otherwise (the
guard re-checks the loop condition, so surplus fuel is harmless). -/
def fixedBuckets (filter : String) (intervalMs endBucket : Int) :
    Nat → Int → List HistoryItem → List ChartDataPointRaw
  | 0, _, _ => []
  | fuel + 1, cursor, hist =>
    if cursor ≤ endBucket then
      let step := collectFixed filter cursor (cursor + intervalMs) hist 0 0 0
      let s := step.1
      ⟨cursor, s.1, s.2.1, s.2.2, s.1 + s.2.1⟩ ::
        fixedBuckets filter intervalMs endBucket fuel (cursor + intervalMs) step.2
    else []

/-- Inner loop of the calendar-day path (lines 928-950): consume leading
events whose local day key equals `cursorKey`, threading the shared offset
cursor.  Note the offset lookup advances the cursor even for the event that
breaks the loop, exactly as in the source. -/
def consumeDay (filter : String) (segments : List OffsetSegment) (cursorKey : Int) :
    List HistoryItem → Nat → Int → Int → Int → (Int × Int × Int) × Nat × List HistoryItem
  | [], oi, a, l, z => ((a, l, z), oi, [])
  | item :: rest, oi, a, l, z =>
    let off := getOffsetForTs item.t segments oi
    let itemKey := Int.fdiv (item.t + off.1) DAY_MS
    if itemKey = cursorKey then
      let add := applyChartFilter filter (getAiCount item) item.last_chance
        (getZeroEtvCount item)
      consumeDay filter segments cursorKey rest off.2 (a + add.1) (l + add.2.1) (z + add.2.2)
    else ((a, l, z), off.2, item :: rest)

/-- Outer loop of the calendar-day path (lines 923-961):
`while (cursorKey <= endKey)` emit one bucket per local day key.  Fuel
`(endKey + 1 - startKey).toNat` is exactly the number of iterations. -/
def dayBuckets (filter : String) (segments : List OffsetSegment) (endKey : Int) :
    Nat → Int → List HistoryItem → Nat → List ChartDataPointRaw
  | 0, _, _, _ => []
  | fuel + 1, cursorKey, hist, oi =>
    if cursorKey ≤ endKey then
      let step := consumeDay filter segments cursorKey hist oi 0 0 0
      let s := step.1
      ⟨dayBucketStart segments cursorKey, s.1, s.2.1, s.2.2, s.1 + s.2.1⟩ ::
        dayBuckets filter segments endKey fuel (cursorKey + 1) step.2.2 step.2.1
    else []

/-- `processChartData(history, granularity, filter)` (lines 889-1012), up to
the final `formatChartPoints` presentation step (which attaches label
strings, copying `date` and the sums verbatim). -/
def processChartData (tz : Int → Int) (now : Int) (history : List HistoryItem)
    (granularity filter : String) : List ChartDataPointRaw :=
  match history with
  | [] => []
  | first :: rest =>
    let endTime := chartEndTime now first rest
    let intervalMs := chartInterval granularity
    if granularity = "1d" then
      let segments := chartDaySegments tz now first rest
      let startKey := Int.fdiv (first.t + getOffsetAt first.t segments) DAY_MS
      let endKey := Int.fdiv (endTime + getOffsetAt endTime segments) DAY_MS
      dayBuckets filter segments endKey (endKey + 1 - startKey).toNat startKey
        (first :: rest) 0
    else
      let cursor0 := Int.fdiv first.t intervalMs * intervalMs
      let endBucket := Int.fdiv endTime intervalMs * intervalMs
      fixedBuckets filter intervalMs endBucket
        ((Int.fdiv (endBucket - cursor0) intervalMs).toNat + 1) cursor0 (first :: rest)

/-! ## Rolling stats: `processStats` (lines 802-887) -/

/-- Output of `processStats`; the `updatedAt` passthrough (line 816/885,
`new Date(updatedAtStr)` handed back verbatim) is external `Date` parsing
and carries no engine content, so it is not modelled. -/
structure DashboardStats where
  lastHour : Int
  today : Int
  todayGrowth : Int
  todayMedian : Int
  thisWeek : Int
  weekGrowth : Int
  weekMedian : Int
deriving DecidableEq, Repr

/-- Add `v` to the entry of integer key `key` in an integer-keyed JS object
modelled as an association list kept in ascending key order (JS objects
enumerate integer-like keys in ascending order, which is the order
`Object.values` reads at lines 871/874). -/
def addPair : List (Int × Int) → Int → Int → List (Int × Int)
  | [], key, v => [(key, v)]
  | (k, w) :: rest, key, v =>
    if key = k then (k, w + v) :: rest
    else if key < k then (key, v) :: (k, w) :: rest
    else (k, w) :: addPair rest key v

/-- Accumulator of the single pass over the sorted events
(lines 841-869). -/
structure StatsAcc where
  lastHour : Int
  today : Int
  thisWeek : Int
  daily : List (Int × Int)
  weekly : List (Int × Int)
  oi : Nat

/-- Loop body of the event pass of `processStats` (lines 848-869). -/
def statsStep (segments : List OffsetSegment)
    (oneHourAgoTs todayStartTs weekStartTs todayKey currentWeekKey : Int)
    (acc : StatsAcc) (item : HistoryItem) : StatsAcc :=
  let total := getAiCount item + item.last_chance
  let lastHour := if oneHourAgoTs < item.t then acc.lastHour + total else acc.lastHour
  let today := if todayStartTs ≤ item.t then acc.today + total else acc.today
  let thisWeek := if weekStartTs ≤ item.t then acc.thisWeek + total else acc.thisWeek
  let off := getOffsetForTs item.t segments acc.oi
  let localTs := item.t + off.1
  let dayKey := Int.fdiv localTs DAY_MS
  let weekKey := Int.fdiv (getWeekStartLocal localTs) WEEK_MS
  let daily := if dayKey < todayKey then addPair acc.daily dayKey total else acc.daily
  let weekly := if weekKey < currentWeekKey then addPair acc.weekly weekKey total
    else acc.weekly
  ⟨lastHour, today, thisWeek, daily, weekly, off.2⟩

/-- The segment list of `processStats` (lines 818-820). -/
def statsSegments (tz : Int → Int) (now : Int) (first : HistoryItem)
    (rest : List HistoryItem) : List OffsetSegment :=
  buildOffsetSegments tz (min first.t now - WEEK_MS)
    (max (lastItemOf first rest).t now + WEEK_MS)

/-- The map of an integer-keyed accumulator to the rational values list fed
to `calculateMedian`. -/
def valuesQ (m : List (Int × Int)) : List ℚ :=
  (m.map Prod.snd).map (fun v => (v : ℚ))

/-- The accumulated state of the single event pass of `processStats`
(lines 816-869). -/
def statsAccImpl (tz : Int → Int) (now : Int) (first : HistoryItem)
    (rest : List HistoryItem) : StatsAcc :=
  let segments := statsSegments tz now first rest
  let localNow := now + getOffsetAt now segments
  let todayKey := Int.fdiv localNow DAY_MS
  let currentWeekStartLocal := getWeekStartLocal localNow
  let currentWeekKey := Int.fdiv currentWeekStartLocal WEEK_MS
  let todayStartTs := getUtcForLocal (todayKey * DAY_MS) segments
  let weekStartTs := getUtcForLocal currentWeekStartLocal segments
  let oneHourAgoTs := now - HOUR_MS
  (first :: rest).foldl
    (statsStep segments oneHourAgoTs todayStartTs weekStartTs todayKey currentWeekKey)
    ⟨0, 0, 0, [], [], 0⟩

/-- `processStats(history, updatedAtStr)` (lines 802-887) with `Date.now()`
threaded as `now` (empty input yields the all-zero stats of lines
803-814). -/
def processStats (tz : Int → Int) (now : Int) (history : List HistoryItem) :
    DashboardStats :=
  match history with
  | [] => ⟨0, 0, 0, 0, 0, 0, 0⟩
  | first :: rest =>
    let acc := statsAccImpl tz now first rest
    let dailyMedian := jsRound (calculateMedian (valuesQ acc.daily))
    let todayGrowth := if dailyMedian = 0 then 100
      else jsRound ((((acc.today : ℚ) - (dailyMedian : ℚ)) / (dailyMedian : ℚ)) * 100)
    let weeklyMedian := jsRound (calculateMedian (valuesQ acc.weekly))
    let weekGrowth := if weeklyMedian = 0 then 100
      else jsRound ((((acc.thisWeek : ℚ) - (weeklyMedian : ℚ)) / (weeklyMedian : ℚ)) * 100)
    ⟨acc.lastHour, acc.today, todayGrowth, dailyMedian, acc.thisWeek, weekGrowth,
      weeklyMedian⟩

/-! ## Heat maps: `processHeatMaps` (lines 1014-1129) -/

/-- Output of `processHeatMaps`.  `weekly` is a string-keyed JS object
modelled as an insertion-ordered association list; the matrices are 7 rows
(Monday-first weekday) by 24 columns (hour of local day). -/
structure HeatMapData where
  weekly : List (String × Int)
  hourlyMedian : List (List ℚ)
  hourlyMean : List (List ℚ)
  maxDaily : Int
  maxHourlyMedian : ℚ
  maxHourlyMean : ℚ
deriving DecidableEq, Repr

/-- Add `v` to the entry of string key `key` in a string-keyed JS object
(insertion-ordered). -/
def addStr : List (String × Int) → String → Int → List (String × Int)
  | [], key, v => [(key, v)]
  | (k, w) :: rest, key, v =>
    if key = k then (k, w + v) :: rest
    else (k, w) :: addStr rest key v

/-- `l[i] += v` on a JS number array. -/
def listInc (l : List Int) (i : Nat) (v : Int) : List Int :=
  l.set i (l.getD i 0 + v)

/-- `cutoff = Date.now() - 365 * DAY_MS` (line 1015). -/
def heatCutoff (now : Int) : Int := now - 365 * DAY_MS

/-- The `minTs`/`maxTs` scan (lines 1016-1023), with the
`Number.MAX_SAFE_INTEGER` sentinel. -/
def heatMinMax (cutoff : Int) (history : List HistoryItem) : Int × Int :=
  history.foldl
    (fun mm item =>
      if item.t ≤ cutoff then mm
      else (if item.t < mm.1 then item.t else mm.1,
            if mm.2 < item.t then item.t else mm.2))
    (MAX_SAFE_INTEGER, 0)

/-- The segment list of `processHeatMaps` (line 1036). -/
def heatSegments (tz : Int → Int) (now : Int) (history : List HistoryItem) :
    List OffsetSegment :=
  let mm := heatMinMax (heatCutoff now) history
  buildOffsetSegments tz (mm.1 - DAY_MS) (mm.2 + DAY_MS)

/-- `minWeekKey` (line 1055). -/
def heatMinWeekKey (tz : Int → Int) (now : Int) (history : List HistoryItem) : Int :=
  let mm := heatMinMax (heatCutoff now) history
  weekKeyOfLocal (mm.1 + getOffsetAt mm.1 (heatSegments tz now history))

/-- `maxWeekKey` (line 1056). -/
def heatMaxWeekKey (tz : Int → Int) (now : Int) (history : List HistoryItem) : Int :=
  let mm := heatMinMax (heatCutoff now) history
  weekKeyOfLocal (mm.2 + getOffsetAt mm.2 (heatSegments tz now history))

/-- `weekCount = Math.max(maxWeekKey - minWeekKey + 1, 1)` (line 1057). -/
def heatWeekCount (tz : Int → Int) (now : Int) (history : List HistoryItem) : Int :=
  max (heatMaxWeekKey tz now history - heatMinWeekKey tz now history + 1) 1

/-- Accumulator of the event pass of `processHeatMaps` (lines 1059-1105):
`weekly` daily-total object, `hourlySum` running 7×24 totals,
`hourlyWeekSums` per-cell weekly sample vectors (each pre-sized to
`weekCount` zeros), and the shared offset cursor. -/
structure HeatAcc where
  weekly : List (String × Int)
  hourlySum : Int → Int → Int
  hourlyWeekSums : Int → Int → List Int
  oi : Nat

/-- Loop body of the event pass of `processHeatMaps` (lines 1067-1105). -/
def heatStep (cutoff : Int) (segments : List OffsetSegment)
    (minWeekKey weekCount : Int) (filter : String)
    (acc : HeatAcc) (item : HistoryItem) : HeatAcc :=
  if item.t ≤ cutoff then acc
  else
    let off := getOffsetForTs item.t segments acc.oi
    let localTs := item.t + off.1
    let dayIndex := mondayIndexOf localTs
    let hour := hourOfLocal localTs
    let total := heatFilterTotal filter item
    let weekly := addStr acc.weekly (dateKeyOf localTs) total
    let weekIndex := weekKeyOfLocal localTs - minWeekKey
    let hourlyWeekSums :=
      if 0 ≤ weekIndex ∧ weekIndex < weekCount then
        fun d h =>
          if d = dayIndex ∧ h = hour then
            listInc (acc.hourlyWeekSums d h) weekIndex.toNat total
          else acc.hourlyWeekSums d h
      else acc.hourlyWeekSums
    let hourlySum := fun d h =>
      if d = dayIndex ∧ h = hour then acc.hourlySum d h + total else acc.hourlySum d h
    ⟨weekly, hourlySum, hourlyWeekSums, off.2⟩

/-- The accumulated state after the event pass of `processHeatMaps`. -/
def heatAcc (tz : Int → Int) (now : Int) (filter : String)
    (history : List HistoryItem) : HeatAcc :=
  history.foldl
    (heatStep (heatCutoff now) (heatSegments tz now history)
      (heatMinWeekKey tz now history) (heatWeekCount tz now history) filter)
    ⟨[], fun _ _ => 0, fun _ _ => List.replicate (heatWeekCount tz now history).toNat 0, 0⟩

/-- The early-return value of `processHeatMaps` (lines 1025-1034). -/
def emptyHeatMapData : HeatMapData :=
  ⟨[], List.replicate 7 (List.replicate 24 (0 : ℚ)),
    List.replicate 7 (List.replicate 24 (0 : ℚ)), 1, 1, 1⟩

/-- `Math.max(...values, 1)` on rationals. -/
def qListMax1 (l : List ℚ) : ℚ := l.foldr max 1

/-- `Math.max(...values, 1)` on integers. -/
def iListMax1 (l : List Int) : Int := l.foldr max 1

/-- `processHeatMaps(history, filter)` (lines 1014-1129) with `Date.now()`
threaded as `now`. -/
def processHeatMaps (tz : Int → Int) (now : Int) (history : List HistoryItem)
    (filter : String) : HeatMapData :=
  if (heatMinMax (heatCutoff now) history).1 = MAX_SAFE_INTEGER then emptyHeatMapData
  else
    let weekCount := heatWeekCount tz now history
    let acc := heatAcc tz now filter history
    let medianM := (List.range 7).map (fun d => (List.range 24).map (fun h =>
      round1 (calculateMedian ((acc.hourlyWeekSums (d : Int) (h : Int)).map
        (fun v => (v : ℚ))))))
    let meanM := (List.range 7).map (fun d => (List.range 24).map (fun h =>
      round1 ((acc.hourlySum (d : Int) (h : Int) : ℚ) / (weekCount : ℚ))))
    ⟨acc.weekly, medianM, meanM, iListMax1 (acc.weekly.map Prod.snd),
      qListMax1 medianM.flatten, qListMax1 meanM.flatten⟩

/-! ## Derived definitions used by the statements -/

/-- Start of the interval covered by a segment list. -/
def segsStart : List OffsetSegment → Int
  | [] => 0
  | s :: _ => s.start

/-- End of the interval covered by a segment list (the last segment's
`stop`). -/
def segsStop : List OffsetSegment → Int
  | [] => 0
  | [s] => s.stop
  | _ :: s :: rest => segsStop (s :: rest)

/-- Contiguity: each segment's `end` equals the next segment's `start`
(the data-model invariant of §3 of the spec). -/
def SegChain (l : List OffsetSegment) : Prop :=
  List.Chain' (fun a b => a.stop = b.start) l

/-- Every segment is nonempty as a half-open interval. -/
def SegPos (l : List OffsetSegment) : Prop :=
  ∀ s ∈ l, s.start < s.stop

/-- A well-formed segment list: nonempty, contiguous, with nonempty
segments.  `buildOffsetSegments` always produces such a list. -/
def SegsWF (l : List OffsetSegment) : Prop :=
  l ≠ [] ∧ SegChain l ∧ SegPos l

/-- The event list is sorted by ascending timestamp (the documented
precondition of §5 of the spec). -/
def sortedByT (l : List HistoryItem) : Prop :=
  List.Chain' (fun a b => a.t ≤ b.t) l

/-- The unfiltered total of one event: `getAiCount(e) + e.last_chance`. -/
def evTotal (e : HistoryItem) : Int := getAiCount e + e.last_chance

/-- Run `getOffsetForTs` over a sequence of queries with a shared cursor,
returning the offsets in order and the final cursor. -/
def runOffsets (segments : List OffsetSegment) : List Int → Nat → List Int × Nat
  | [], i => ([], i)
  | ts :: rest, i =>
    let o := getOffsetForTs ts segments i
    let r := runOffsets segments rest o.2
    (o.1 :: r.1, r.2)

/-- Stateless variant of `statsStep` that looks the offset up with
`getOffsetAt` instead of the shared forward-only cursor; used to state what
the per-day/per-week totals of `processStats` are. -/
def statsStepSpec (segments : List OffsetSegment)
    (oneHourAgoTs todayStartTs weekStartTs todayKey currentWeekKey : Int)
    (acc : StatsAcc) (item : HistoryItem) : StatsAcc :=
  let total := getAiCount item + item.last_chance
  let lastHour := if oneHourAgoTs < item.t then acc.lastHour + total else acc.lastHour
  let today := if todayStartTs ≤ item.t then acc.today + total else acc.today
  let thisWeek := if weekStartTs ≤ item.t then acc.thisWeek + total else acc.thisWeek
  let localTs := item.t + getOffsetAt item.t segments
  let dayKey := Int.fdiv localTs DAY_MS
  let weekKey := Int.fdiv (getWeekStartLocal localTs) WEEK_MS
  let daily := if dayKey < todayKey then addPair acc.daily dayKey total else acc.daily
  let weekly := if weekKey < currentWeekKey then addPair acc.weekly weekKey total
    else acc.weekly
  ⟨lastHour, today, thisWeek, daily, weekly, acc.oi⟩

/-- The accumulated state of `processStats` computed with per-event
`getOffsetAt` lookups (the specification-side description of the per-day and
per-week historical totals). -/
def statsAccSpec (tz : Int → Int) (now : Int) (first : HistoryItem)
    (rest : List HistoryItem) : StatsAcc :=
  let segments := statsSegments tz now first rest
  let localNow := now + getOffsetAt now segments
  let todayKey := Int.fdiv localNow DAY_MS
  let currentWeekStartLocal := getWeekStartLocal localNow
  let currentWeekKey := Int.fdiv currentWeekStartLocal WEEK_MS
  let todayStartTs := getUtcForLocal (todayKey * DAY_MS) segments
  let weekStartTs := getUtcForLocal currentWeekStartLocal segments
  let oneHourAgoTs := now - HOUR_MS
  (first :: rest).foldl
    (statsStepSpec segments oneHourAgoTs todayStartTs weekStartTs todayKey currentWeekKey)
    ⟨0, 0, 0, [], [], 0⟩

/-- Monotonicity of the per-event local day keys (together with the key of
`endTime`): the formal rendering of C8's proviso that no two events collide
ambiguously across a calendar-day bucket boundary. -/
def chartDayKeysMono (tz : Int → Int) (now : Int) (first : HistoryItem)
    (rest : List HistoryItem) : Prop :=
  List.Chain' (fun a b => a ≤ b)
    (((first :: rest).map (fun e => dayKeyAt (chartDaySegments tz now first rest) e.t)) ++
      [dayKeyAt (chartDaySegments tz now first rest) (chartEndTime now first rest)])

/-! ## Concrete timezone models used in witnesses and counterexamples

These are the offset functions the external civil-time primitive induces for
America/Los_Angeles on concrete ranges: constant −8h (PST), and the 2024
spring-forward / fall-back steps (2024-03-10 10:00 UTC and
2024-11-03 09:00 UTC). -/

def tzConst (c : Int) : Int → Int := fun _ => c

def laSpringTz : Int → Int :=
  fun t => if t < 1710064800000 then -28800000 else -25200000

def laFallTz : Int → Int :=
  fun t => if t < 1730624400000 then -25200000 else -28800000

/-- The five output-relevant fields of a `StatsAcc` (everything except the
offset cursor). -/
def statsProj (a : StatsAcc) : Int × Int × Int × List (Int × Int) × List (Int × Int) :=
  (a.lastHour, a.today, a.thisWeek, a.daily, a.weekly)

/-- A kernel-reducible decision procedure for `List.Chain'` (the library
instance blocks kernel reduction). -/
def decChain' {α : Type} (R : α → α → Prop) (dec : ∀ a b, Decidable (R a b)) :
    (l : List α) → Decidable (List.Chain' R l)
  | [] => isTrue List.chain'_nil
  | [_] => isTrue (List.chain'_singleton _)
  | a :: b :: r =>
    match decChain' R dec (b :: r) with
    | isTrue h =>
      match dec a b with
      | isTrue he => isTrue (List.Chain'.cons he h)
      | isFalse he => isFalse (fun hc => he (List.chain'_cons.mp hc).1)
    | isFalse h => isFalse (fun hc => h (List.chain'_cons.mp hc).2)

instance (l : List OffsetSegment) : Decidable (SegChain l) :=
  decChain' (fun a b : OffsetSegment => a.stop = b.start)
    (fun a b => inferInstanceAs (Decidable (a.stop = b.start))) l

instance (l : List OffsetSegment) : Decidable (SegPos l) :=
  inferInstanceAs (Decidable (∀ s ∈ l, s.start < s.stop))

instance (l : List OffsetSegment) : Decidable (SegsWF l) :=
  inferInstanceAs (Decidable (_ ∧ _ ∧ _))

instance (l : List Int) : Decidable (List.Chain' (fun a b : Int => a ≤ b) l) :=
  decChain' (fun a b : Int => a ≤ b) (fun a b => Int.decLe a b) l

instance (l : List HistoryItem) : Decidable (sortedByT l) :=
  decChain' (fun a b : HistoryItem => a.t ≤ b.t)
    (fun a b => Int.decLe a.t b.t) l

instance (tz : Int → Int) (now : Int) (first : HistoryItem) (rest : List HistoryItem) :
    Decidable (chartDayKeysMono tz now first rest) :=
  decChain' (fun a b : Int => a ≤ b) (fun a b => Int.decLe a b) _

/-! ## Infrastructure lemmas: segment lists -/

lemma MINUTE_MS_pos : (0 : Int) < MINUTE_MS := by norm_num [MINUTE_MS]

lemma DAY_MS_pos : (0 : Int) < DAY_MS := by
  norm_num [DAY_MS, HOUR_MS, MINUTE_MS]

lemma segsStop_cons (s : OffsetSegment) (l : List OffsetSegment) (h : l ≠ []) :
    segsStop (s :: l) = segsStop l := by
  cases l with
  | nil => exact absurd rfl h
  | cons a r => rfl

lemma findTransitionAux_bounds (tz : Int → Int) (off : Int) :
    ∀ fuel (lo hi : Int), lo < hi →
      lo < findTransitionAux tz off fuel lo hi ∧ findTransitionAux tz off fuel lo hi ≤ hi := by
  intro fuel
  induction fuel with
  | zero => intro lo hi h; simp only [findTransitionAux]; omega
  | succ n ih =>
    intro lo hi h
    simp only [findTransitionAux]
    by_cases hcond : hi - lo ≤ MINUTE_MS
    · simp only [if_pos hcond]; omega
    · simp only [if_neg hcond]
      have hM : (0 : Int) < MINUTE_MS := MINUTE_MS_pos
      have hfd : Int.fdiv (lo + hi) 2 = (lo + hi) / 2 := Int.fdiv_eq_ediv _ (by norm_num)
      have h2 := Int.ediv_add_emod (lo + hi) 2
      have h3 := Int.emod_lt_of_pos (lo + hi) (b := 2) (by norm_num)
      have h4 := Int.emod_nonneg (lo + hi) (b := 2) (by norm_num)
      have hmidlo : lo < Int.fdiv (lo + hi) 2 := by rw [hfd]; omega
      have hmidhi : Int.fdiv (lo + hi) 2 < hi := by rw [hfd]; omega
      by_cases htz : tz (Int.fdiv (lo + hi) 2) = off
      · simp only [if_pos htz]
        have := ih (Int.fdiv (lo + hi) 2) hi hmidhi
        omega
      · simp only [if_neg htz]
        have := ih lo (Int.fdiv (lo + hi) 2) hmidlo
        omega

lemma findOffsetTransition_bounds (tz : Int → Int) (lo hi off : Int) (h : lo < hi) :
    lo < findOffsetTransition tz lo hi off ∧ findOffsetTransition tz lo hi off ≤ hi :=
  findTransitionAux_bounds tz off 64 lo hi h

lemma buildSegsAux_wf (tz : Int → Int) (stop : Int) :
    ∀ (n : Nat) (cursor segmentStart currentOffset : Int),
      segmentStart ≤ cursor → cursor + (n : Int) * DAY_MS ≤ stop →
      buildSegsAux tz stop n cursor segmentStart currentOffset ≠ [] ∧
      SegChain (buildSegsAux tz stop n cursor segmentStart currentOffset) ∧
      SegPos (buildSegsAux tz stop n cursor segmentStart currentOffset) ∧
      segsStart (buildSegsAux tz stop n cursor segmentStart currentOffset) = segmentStart ∧
      segsStop (buildSegsAux tz stop n cursor segmentStart currentOffset) = stop + 1 := by
  intro n
  induction n with
  | zero =>
    intro cursor segmentStart currentOffset h1 h2
    simp only [buildSegsAux]
    refine ⟨by simp, List.chain'_singleton _, ?_, rfl, rfl⟩
    intro s hs
    simp only [List.mem_singleton] at hs
    subst hs
    simp only
    omega
  | succ n ih =>
    intro cursor segmentStart currentOffset h1 h2
    simp only [buildSegsAux]
    have hday : (0 : Int) < DAY_MS := DAY_MS_pos
    have hcast : ((n : Int) + 1) * DAY_MS = (n : Int) * DAY_MS + DAY_MS := by ring
    by_cases heq : tz (cursor + DAY_MS) = currentOffset
    · simp only [if_pos heq]
      exact ih (cursor + DAY_MS) segmentStart currentOffset (by omega)
        (by push_cast at h2 ⊢; omega)
    · simp only [if_neg heq]
      have htr := findOffsetTransition_bounds tz cursor (cursor + DAY_MS) currentOffset
        (by omega)
      obtain ⟨hne, hch, hpos, hstart, hstop⟩ :=
        ih (cursor + DAY_MS) (findOffsetTransition tz cursor (cursor + DAY_MS) currentOffset)
          (tz (cursor + DAY_MS)) (by omega) (by push_cast at h2 ⊢; omega)
      set r := buildSegsAux tz stop n (cursor + DAY_MS)
        (findOffsetTransition tz cursor (cursor + DAY_MS) currentOffset)
        (tz (cursor + DAY_MS)) with hr
      cases hrl : r with
      | nil => exact absurd hrl hne
      | cons s0 r' =>
        rw [hrl] at hch hpos hstart hstop
        refine ⟨by simp, ?_, ?_, rfl, ?_⟩
        · exact List.Chain'.cons (by simpa using hstart.symm) hch
        · intro s hs
          simp only [List.mem_cons] at hs
          rcases hs with hs | hs
          · subst hs; simp only; omega
          · exact hpos s (by simp [hs])
        · rw [segsStop_cons _ _ (by simp)]
          exact hstop

lemma buildOffsetSegments_wf (tz : Int → Int) (a b : Int) (h : a ≤ b) :
    SegsWF (buildOffsetSegments tz a b) ∧
    segsStart (buildOffsetSegments tz a b) = a ∧
    segsStop (buildOffsetSegments tz a b) = b + 1 := by
  have hmin : min a b = a := min_eq_left h
  have hmax : max a b = b := max_eq_right h
  have hday : (0 : Int) < DAY_MS := DAY_MS_pos
  have hfd : Int.fdiv (b - a) DAY_MS = (b - a) / DAY_MS := Int.fdiv_eq_ediv _ (by omega)
  have hge : (0 : Int) ≤ (b - a) / DAY_MS := Int.ediv_nonneg (by omega) (by omega)
  have hcast : (((b - a) / DAY_MS).toNat : Int) = (b - a) / DAY_MS :=
    Int.toNat_of_nonneg hge
  have h2 := Int.ediv_add_emod (b - a) DAY_MS
  have h3 := Int.emod_lt_of_pos (b - a) hday
  have h4 := Int.emod_nonneg (b - a) (b := DAY_MS) (by omega)
  have hfuel : a + ((Int.fdiv (b - a) DAY_MS).toNat : Int) * DAY_MS ≤ b := by
    have h5 : (b - a) / DAY_MS * DAY_MS ≤ b - a := Int.ediv_mul_le _ (by omega)
    rw [hfd, hcast]
    linarith
  obtain ⟨hne, hch, hpos, hstart, hstop⟩ :=
    buildSegsAux_wf tz b (Int.fdiv (b - a) DAY_MS).toNat a a (tz a) le_rfl hfuel
  unfold buildOffsetSegments
  rw [hmin, hmax]
  exact ⟨⟨hne, hch, hpos⟩, hstart, hstop⟩

lemma segsStart_le_start (l : List OffsetSegment) (hc : SegChain l) (hp : SegPos l) :
    ∀ s ∈ l, segsStart l ≤ s.start := by
  induction l with
  | nil => intro s hs; cases hs
  | cons a r ih =>
    intro s hs
    simp only [List.mem_cons] at hs
    rcases hs with hs | hs
    · subst hs; exact le_rfl
    · cases r with
      | nil => cases hs
      | cons b r' =>
        have hab : a.stop = b.start := (List.chain'_cons.mp hc).1
        have hchain : SegChain (b :: r') := (List.chain'_cons.mp hc).2
        have hpr : SegPos (b :: r') := fun x hx => hp x (by simp [hx])
        have := ih hchain hpr s hs
        have ha : a.start < a.stop := hp a (by simp)
        simp only [segsStart] at this ⊢
        omega

lemma chain_after (x : OffsetSegment) (l : List OffsetSegment)
    (hc : SegChain (x :: l)) (hp : SegPos (x :: l)) :
    ∀ s ∈ l, x.stop ≤ s.start := by
  intro s hs
  cases l with
  | nil => cases hs
  | cons b r =>
    have hxb : x.stop = b.start := (List.chain'_cons.mp hc).1
    have hchain : SegChain (b :: r) := (List.chain'_cons.mp hc).2
    have hpr : SegPos (b :: r) := fun y hy => hp y (by simp [hy])
    have := segsStart_le_start (b :: r) hchain hpr s hs
    simp only [segsStart] at this
    omega

lemma chain_before (l₁ : List OffsetSegment) (x : OffsetSegment) (l₂ : List OffsetSegment)
    (hc : SegChain (l₁ ++ x :: l₂)) (hp : SegPos (l₁ ++ x :: l₂)) :
    ∀ s ∈ l₁, s.stop ≤ x.start := by
  induction l₁ with
  | nil => intro s hs; cases hs
  | cons a r ih =>
    intro s hs
    simp only [List.mem_cons] at hs
    rcases hs with hs | hs
    · subst hs
      exact chain_after s (r ++ x :: l₂) hc hp x (by simp)
    · have hc' : SegChain (r ++ x :: l₂) := hc.tail
      have hp' : SegPos (r ++ x :: l₂) := fun y hy => hp y (List.mem_cons_of_mem a hy)
      exact ih hc' hp' s hs

lemma seg_coverage (l : List OffsetSegment) (hne : l ≠ []) (hc : SegChain l)
    (hp : SegPos l) :
    ∀ t, segsStart l ≤ t → t < segsStop l →
      ∃ l₁ x l₂, l = l₁ ++ x :: l₂ ∧ x.start ≤ t ∧ t < x.stop := by
  induction l with
  | nil => exact absurd rfl hne
  | cons a r ih =>
    intro t h1 h2
    by_cases ha : t < a.stop
    · exact ⟨[], a, r, rfl, h1, ha⟩
    · cases r with
      | nil =>
        simp only [segsStop] at h2
        omega
      | cons b r' =>
        have hab : a.stop = b.start := (List.chain'_cons.mp hc).1
        have hchain : SegChain (b :: r') := (List.chain'_cons.mp hc).2
        have hpr : SegPos (b :: r') := fun y hy => hp y (by simp [hy])
        have h2' : t < segsStop (b :: r') := by
          rw [segsStop_cons a (b :: r') (by simp)] at h2
          exact h2
        have h1' : segsStart (b :: r') ≤ t := by
          simp only [segsStart]
          omega
        obtain ⟨l₁, x, l₂, heq, hx1, hx2⟩ := ih (by simp) hchain hpr t h1' h2'
        exact ⟨a :: l₁, x, l₂, by rw [List.cons_append, ← heq], hx1, hx2⟩

lemma findFromEnd_none (ts : Int) (l : List OffsetSegment)
    (h : ∀ s ∈ l, ts < s.start) : findFromEnd ts l = none := by
  induction l with
  | nil => rfl
  | cons a r ih =>
    simp only [findFromEnd]
    rw [ih (fun s hs => h s (by simp [hs]))]
    have : ¬ a.start ≤ ts := by have := h a (by simp); omega
    simp [this]

lemma findFromEnd_last (ts : Int) (l₁ : List OffsetSegment) (x : OffsetSegment)
    (l₂ : List OffsetSegment) (hx : x.start ≤ ts) (h₂ : ∀ s ∈ l₂, ts < s.start) :
    findFromEnd ts (l₁ ++ x :: l₂) = some x.offset := by
  induction l₁ with
  | nil =>
    simp only [List.nil_append, findFromEnd]
    rw [findFromEnd_none ts l₂ h₂]
    simp [hx]
  | cons a r ih =>
    rw [List.cons_append]
    simp only [findFromEnd]
    rw [ih]

lemma getOffsetAt_of_containing (ts : Int) (l₁ : List OffsetSegment) (x : OffsetSegment)
    (l₂ : List OffsetSegment) (hc : SegChain (l₁ ++ x :: l₂)) (hp : SegPos (l₁ ++ x :: l₂))
    (hx1 : x.start ≤ ts) (hx2 : ts < x.stop) :
    getOffsetAt ts (l₁ ++ x :: l₂) = x.offset := by
  have hcsuf : SegChain (x :: l₂) := (List.chain'_append.mp hc).2.1
  have hpsuf : SegPos (x :: l₂) := fun y hy => hp y (by simp [hy])
  have h₂ : ∀ s ∈ l₂, ts < s.start := by
    intro s hs
    have := chain_after x l₂ hcsuf hpsuf s hs
    omega
  unfold getOffsetAt
  rw [findFromEnd_last ts l₁ x l₂ hx1 h₂]

lemma getUtcForLocal_of_containing (ts : Int) (l₁ : List OffsetSegment)
    (x : OffsetSegment) (l₂ : List OffsetSegment)
    (hx1 : x.start ≤ ts) (hx2 : ts < x.stop)
    (hno : ∀ s ∈ l₁, segMatches (ts + x.offset) s = false) :
    getUtcForLocal (ts + x.offset) (l₁ ++ x :: l₂) = ts := by
  unfold getUtcForLocal
  have hfind₁ : List.find? (segMatches (ts + x.offset)) l₁ = none :=
    List.find?_eq_none.mpr (fun y hy => by rw [hno y hy]; simp)
  have hx : segMatches (ts + x.offset) x = true := by
    unfold segMatches
    simp only [Bool.and_eq_true, decide_eq_true_eq]
    constructor <;> omega
  rw [List.find?_append, hfind₁, Option.none_or, List.find?_cons_of_pos _ hx]
  simp only
  omega

lemma segsStop_eq_getD_last (l : List OffsetSegment) (hne : l ≠ []) :
    segsStop l = (l.getD (l.length - 1) default).stop := by
  induction l with
  | nil => exact absurd rfl hne
  | cons a r ih =>
    cases r with
    | nil => rfl
    | cons b r' =>
      rw [segsStop_cons a (b :: r') (by simp), ih (by simp)]
      simp only [List.length_cons, Nat.add_sub_cancel, List.getD_cons_succ]

lemma segsStart_eq_getD_zero (l : List OffsetSegment) (hne : l ≠ []) :
    segsStart l = (l.getD 0 default).start := by
  cases l with
  | nil => exact absurd rfl hne
  | cons a r => rfl

lemma chain_getD (l : List OffsetSegment) (hc : SegChain l) :
    ∀ i, i + 1 < l.length → (l.getD i default).stop = (l.getD (i + 1) default).start := by
  intro i hi
  have h1 : i < l.length - 1 := by omega
  have := List.chain'_iff_get.mp hc i h1
  rw [List.getD_eq_getElem l default (by omega), List.getD_eq_getElem l default hi]
  simpa [List.get_eq_getElem] using this

lemma advanceIdx_ge (ts : Int) (l : List OffsetSegment) :
    ∀ fuel i, i ≤ advanceIdx ts l fuel i := by
  intro fuel
  induction fuel with
  | zero => intro i; simp [advanceIdx]
  | succ n ih =>
    intro i
    simp only [advanceIdx]
    split
    · exact le_trans (by omega) (ih (i + 1))
    · exact le_rfl

lemma advanceIdx_spec (ts : Int) (l : List OffsetSegment) (hc : SegChain l)
    (hp : SegPos l) (hts : ts < segsStop l) :
    ∀ fuel i, i < l.length → l.length - 1 ≤ fuel + i →
      (l.getD i default).start ≤ ts →
      advanceIdx ts l fuel i < l.length ∧
      (l.getD (advanceIdx ts l fuel i) default).start ≤ ts ∧
      ts < (l.getD (advanceIdx ts l fuel i) default).stop := by
  intro fuel
  induction fuel with
  | zero =>
    intro i hi hfuel hstart
    simp only [advanceIdx]
    have hlast : i = l.length - 1 := by omega
    refine ⟨hi, hstart, ?_⟩
    have hnil : l ≠ [] := by intro h; subst h; simp at hi
    rw [segsStop_eq_getD_last l hnil] at hts
    rw [hlast]
    exact hts
  | succ n ih =>
    intro i hi hfuel hstart
    simp only [advanceIdx]
    by_cases hcond : i < l.length - 1 ∧ (l.getD i default).stop ≤ ts
    · rw [if_pos hcond]
      have hnext : (l.getD (i + 1) default).start ≤ ts := by
        rw [← chain_getD l hc i (by omega)]
        exact hcond.2
      exact ih (i + 1) (by omega) (by omega) hnext
    · rw [if_neg hcond]
      refine ⟨hi, hstart, ?_⟩
      push_neg at hcond
      by_cases hlt : i < l.length - 1
      · exact hcond hlt
      · have hlast : i = l.length - 1 := by omega
        have hnil : l ≠ [] := by intro h; subst h; simp at hi
        rw [segsStop_eq_getD_last l hnil] at hts
        rw [hlast]
        exact hts

lemma getD_decomposition (l : List OffsetSegment) (j : Nat) (hj : j < l.length) :
    l = l.take j ++ l.getD j default :: l.drop (j + 1) := by
  rw [List.getD_eq_getElem l default hj]
  rw [← List.drop_eq_getElem_cons hj, List.take_append_drop]

lemma getOffsetForTs_spec (ts : Int) (l : List OffsetSegment) (hwf : SegsWF l)
    (i : Nat) (hi : i < l.length) (hstart : (l.getD i default).start ≤ ts)
    (hts : ts < segsStop l) :
    (getOffsetForTs ts l i).1 = getOffsetAt ts l ∧
    (getOffsetForTs ts l i).2 < l.length ∧
    (l.getD (getOffsetForTs ts l i).2 default).start ≤ ts ∧
    ts < (l.getD (getOffsetForTs ts l i).2 default).stop ∧
    i ≤ (getOffsetForTs ts l i).2 := by
  obtain ⟨hne, hc, hp⟩ := hwf
  have hadv := advanceIdx_spec ts l hc hp hts l.length i hi (by omega) hstart
  set j := advanceIdx ts l l.length i with hj
  obtain ⟨hjlen, hjstart, hjstop⟩ := hadv
  have hdec := getD_decomposition l j hjlen
  have hcdec : SegChain (l.take j ++ l.getD j default :: l.drop (j + 1)) := by
    rw [← hdec]; exact hc
  have hpdec : SegPos (l.take j ++ l.getD j default :: l.drop (j + 1)) := by
    rw [← hdec]; exact hp
  have hoff : getOffsetAt ts l = (l.getD j default).offset := by
    conv_lhs => rw [hdec]
    exact getOffsetAt_of_containing ts _ _ _ hcdec hpdec hjstart hjstop
  refine ⟨?_, hjlen, hjstart, hjstop, advanceIdx_ge ts l l.length i⟩
  simp only [getOffsetForTs, ← hj, hoff]

lemma runOffsets_spec (l : List OffsetSegment) (hwf : SegsWF l) :
    ∀ (qs : List Int) (i : Nat), i < l.length →
      List.Chain' (fun a b => a ≤ b) qs →
      (∀ q ∈ qs, segsStart l ≤ q ∧ q < segsStop l) →
      (qs ≠ [] → (l.getD i default).start ≤ qs.headI) →
      (runOffsets l qs i).1 = qs.map (fun q => getOffsetAt q l) ∧
      i ≤ (runOffsets l qs i).2 ∧ (runOffsets l qs i).2 < l.length := by
  intro qs
  induction qs with
  | nil =>
    intro i hi _ _ _
    exact ⟨rfl, le_rfl, hi⟩
  | cons q rest ih =>
    intro i hi hmono hrange hstart
    have hq : (l.getD i default).start ≤ q := hstart (by simp)
    have hqr : segsStart l ≤ q ∧ q < segsStop l := hrange q (by simp)
    have hspec := getOffsetForTs_spec q l hwf i hi hq hqr.2
    obtain ⟨hoff, hjlen, hjstart, hjstop, hjge⟩ := hspec
    have hmono' : List.Chain' (fun a b => a ≤ b) rest := hmono.tail
    have hrange' : ∀ x ∈ rest, segsStart l ≤ x ∧ x < segsStop l :=
      fun x hx => hrange x (by simp [hx])
    have hstart' : rest ≠ [] → (l.getD (getOffsetForTs q l i).2 default).start ≤ rest.headI := by
      intro hrne
      cases rest with
      | nil => exact absurd rfl hrne
      | cons r rest' =>
        have hqr' : q ≤ r := (List.chain'_cons.mp hmono).1
        simp only [List.headI]
        omega
    obtain ⟨ih1, ih2, ih3⟩ := ih (getOffsetForTs q l i).2 hjlen hmono' hrange' hstart'
    refine ⟨?_, ?_, ?_⟩
    · simp only [runOffsets, List.map_cons]
      rw [hoff, ih1]
    · simp only [runOffsets]
      exact le_trans hjge ih2
    · simp only [runOffsets]
      exact ih3

lemma chain_start_lt (l : List OffsetSegment) (hc : SegChain l) (hp : SegPos l) :
    List.Chain' (fun s₁ s₂ => s₁.start < s₂.start) l := by
  induction l with
  | nil => exact List.chain'_nil
  | cons a r ih =>
    cases r with
    | nil => exact List.chain'_singleton a
    | cons b r' =>
      have hab : a.stop = b.start := (List.chain'_cons.mp hc).1
      have ha : a.start < a.stop := hp a (by simp)
      exact List.Chain'.cons (by omega)
        (ih (List.chain'_cons.mp hc).2 (fun y hy => hp y (by simp [hy])))

lemma buildSegsAux_const_len (tz : Int → Int) (stop : Int) :
    ∀ (n : Nat) (cursor segmentStart currentOffset : Int),
      (∀ m : Nat, m ≤ n → tz (cursor + (m : Int) * DAY_MS) = currentOffset) →
      (buildSegsAux tz stop n cursor segmentStart currentOffset).length = 1 := by
  intro n
  induction n with
  | zero => intro cursor segmentStart currentOffset _; rfl
  | succ n ih =>
    intro cursor segmentStart currentOffset hconst
    have h1 : tz (cursor + DAY_MS) = currentOffset := by
      have := hconst 1 (by omega)
      push_cast at this
      simpa using this
    simp only [buildSegsAux, if_pos h1]
    apply ih
    intro m hm
    have := hconst (m + 1) (by omega)
    push_cast at this ⊢
    calc tz (cursor + DAY_MS + (m : Int) * DAY_MS)
      = tz (cursor + ((m : Int) + 1) * DAY_MS) := by ring_nf
    _ = currentOffset := this

/-- Claim C1 (corrected): for `a ≤ b`, `buildOffsetSegments(a, b)` returns a
nonempty list of offset segments that is contiguous (each segment's end
equals the next segment's start), strictly ordered by start, and whose union
covers exactly `[a, b+1)`; a range whose normalized width is less than one
day (in particular a zero-length range) returns exactly one segment, as does
a range lying entirely within one constant-offset regime; an inverted range
behaves exactly as the normalized range `[min, max]` (it does not in general
return one segment, see the counterexample). -/
theorem C1_buildOffsetSegments_spec (tz : Int → Int) (a b : Int) (h : a ≤ b) :
    (buildOffsetSegments tz a b ≠ [] ∧
     SegChain (buildOffsetSegments tz a b) ∧
     List.Chain' (fun s₁ s₂ => s₁.start < s₂.start) (buildOffsetSegments tz a b) ∧
     segsStart (buildOffsetSegments tz a b) = a ∧
     segsStop (buildOffsetSegments tz a b) = b + 1 ∧
     (∀ t, a ≤ t → t < b + 1 →
       ∃ s ∈ buildOffsetSegments tz a b, s.start ≤ t ∧ t < s.stop)) ∧
    (∀ a' b' : Int, max a' b' - min a' b' < DAY_MS →
      (buildOffsetSegments tz a' b').length = 1) ∧
    ((∀ t, a ≤ t → t ≤ b → tz t = tz a) →
      (buildOffsetSegments tz a b).length = 1) ∧
    (∀ a' b' : Int,
      buildOffsetSegments tz a' b' = buildOffsetSegments tz (min a' b') (max a' b')) := by
  obtain ⟨⟨hne, hch, hpos⟩, hstart, hstop⟩ := buildOffsetSegments_wf tz a b h
  refine ⟨⟨hne, hch, chain_start_lt _ hch hpos, hstart, hstop, ?_⟩, ?_, ?_, ?_⟩
  · intro t h1 h2
    obtain ⟨l₁, x, l₂, heq, hx1, hx2⟩ :=
      seg_coverage _ hne hch hpos t (by rw [hstart]; exact h1) (by rw [hstop]; exact h2)
    exact ⟨x, by rw [heq]; simp, hx1, hx2⟩
  · intro a' b' hlt
    have hd : (0 : Int) < DAY_MS := DAY_MS_pos
    have hmm : (0 : Int) ≤ max a' b' - min a' b' := by
      have := min_le_max (a := a') (b := b')
      omega
    have hz : Int.fdiv (max a' b' - min a' b') DAY_MS = 0 := by
      rw [Int.fdiv_eq_ediv _ (by omega)]
      exact Int.ediv_eq_zero_of_lt hmm hlt
    show (buildSegsAux tz (max a' b')
      (Int.fdiv (max a' b' - min a' b') DAY_MS).toNat (min a' b') (min a' b')
      (tz (min a' b'))).length = 1
    rw [hz]
    rfl
  · intro hconst
    have hd : (0 : Int) < DAY_MS := DAY_MS_pos
    have hfd : Int.fdiv (b - a) DAY_MS = (b - a) / DAY_MS := Int.fdiv_eq_ediv _ (by omega)
    have hge : (0 : Int) ≤ (b - a) / DAY_MS := Int.ediv_nonneg (by omega) (by omega)
    have hcast : (((b - a) / DAY_MS).toNat : Int) = (b - a) / DAY_MS :=
      Int.toNat_of_nonneg hge
    have h5 : (b - a) / DAY_MS * DAY_MS ≤ b - a := Int.ediv_mul_le _ (by omega)
    unfold buildOffsetSegments
    rw [min_eq_left h, max_eq_right h]
    apply buildSegsAux_const_len
    intro m hm
    have hmle : (m : Int) ≤ (b - a) / DAY_MS := by
      have hcle : ((m : Nat) : Int) ≤ (((Int.fdiv (b - a) DAY_MS).toNat : Nat) : Int) := by
        exact_mod_cast hm
      rw [hfd] at hcle
      rw [hcast] at hcle
      exact hcle
    have hmul : (m : Int) * DAY_MS ≤ (b - a) / DAY_MS * DAY_MS :=
      mul_le_mul_of_nonneg_right hmle (le_of_lt hd)
    have hsample : a + (m : Int) * DAY_MS ≤ b := by linarith
    have hmn : (0 : Int) ≤ (m : Int) * DAY_MS := mul_nonneg (by positivity) (le_of_lt hd)
    exact hconst _ (by linarith) hsample
  · intro a' b'
    unfold buildOffsetSegments
    rw [min_eq_left min_le_max, max_eq_right min_le_max]

/-- Counterexample to claim C1 as stated: an inverted range (start above
end) that spans the 2024 spring-forward transition of the modelled zone is
normalized and yields two segments, not one. -/
theorem C1_counterexample :
    (1710237600000 : Int) > 1709892000000 ∧
    (buildOffsetSegments laSpringTz 1710237600000 1709892000000).length ≠ 1 := by
  constructor
  · decide
  · decide

/-- Witness for C1 at the modelled 2024 spring-forward zone over a four-day
range. -/
theorem C1_witness :
    (1709892000000 : Int) ≤ 1710237600000 ∧
    ((buildOffsetSegments laSpringTz 1709892000000 1710237600000 ≠ [] ∧
      SegChain (buildOffsetSegments laSpringTz 1709892000000 1710237600000) ∧
      List.Chain' (fun s₁ s₂ => s₁.start < s₂.start)
        (buildOffsetSegments laSpringTz 1709892000000 1710237600000) ∧
      segsStart (buildOffsetSegments laSpringTz 1709892000000 1710237600000) =
        1709892000000 ∧
      segsStop (buildOffsetSegments laSpringTz 1709892000000 1710237600000) =
        1710237600000 + 1 ∧
      (∀ t, (1709892000000 : Int) ≤ t → t < 1710237600000 + 1 →
        ∃ s ∈ buildOffsetSegments laSpringTz 1709892000000 1710237600000,
          s.start ≤ t ∧ t < s.stop)) ∧
     (∀ a' b' : Int, max a' b' - min a' b' < DAY_MS →
       (buildOffsetSegments laSpringTz a' b').length = 1) ∧
     ((∀ t, (1709892000000 : Int) ≤ t → t ≤ 1710237600000 → laSpringTz t = laSpringTz 1709892000000) →
       (buildOffsetSegments laSpringTz 1709892000000 1710237600000).length = 1) ∧
     (∀ a' b' : Int, buildOffsetSegments laSpringTz a' b' =
       buildOffsetSegments laSpringTz (min a' b') (max a' b'))) :=
  ⟨by decide, C1_buildOffsetSegments_spec laSpringTz 1709892000000 1710237600000 (by decide)⟩

/-- Claim C6 (corrected): for `a ≤ b` and `ts ∈ [a, b]`, mapping `ts` to its
local instant and back through `getUtcForLocal` returns `ts` exactly,
provided the local instant is unambiguous: no segment that ends at or before
`ts` also contains the local instant under its own offset (an earlier
segment can contain it exactly when `ts` lies in the repeated local interval
immediately after a backward (fall-back) offset change — a window as wide as
the offset step, one hour for DST, which the original one-minute proviso
does not exclude; see the counterexample). -/
theorem C6_getUtcForLocal_roundTrip (tz : Int → Int) (a b ts : Int)
    (hab : a ≤ b) (h1 : a ≤ ts) (h2 : ts ≤ b)
    (hno : ∀ s ∈ buildOffsetSegments tz a b, s.stop ≤ ts →
      segMatches (getLocalOf ts (buildOffsetSegments tz a b)) s = false) :
    getUtcForLocal (getLocalOf ts (buildOffsetSegments tz a b))
      (buildOffsetSegments tz a b) = ts := by
  obtain ⟨⟨hne, hch, hpos⟩, hstart, hstop⟩ := buildOffsetSegments_wf tz a b hab
  obtain ⟨l₁, x, l₂, heq, hx1, hx2⟩ :=
    seg_coverage _ hne hch hpos ts (by rw [hstart]; exact h1) (by rw [hstop]; omega)
  have hoff : getOffsetAt ts (buildOffsetSegments tz a b) = x.offset := by
    conv_lhs => rw [heq]
    exact getOffsetAt_of_containing ts l₁ x l₂ (by rw [← heq]; exact hch)
      (by rw [← heq]; exact hpos) hx1 hx2
  have hlocal : getLocalOf ts (buildOffsetSegments tz a b) = ts + x.offset := by
    unfold getLocalOf
    rw [hoff]
  have hnol : ∀ s ∈ l₁, segMatches (ts + x.offset) s = false := by
    intro s hs
    have hsmem : s ∈ buildOffsetSegments tz a b := by rw [heq]; simp [hs]
    have hstop' : s.stop ≤ ts := by
      have := chain_before l₁ x l₂ (by rw [← heq]; exact hch) (by rw [← heq]; exact hpos) s hs
      omega
    have := hno s hsmem hstop'
    rw [hlocal] at this
    exact this
  rw [hlocal]
  conv_lhs => rw [heq]
  exact getUtcForLocal_of_containing ts l₁ x l₂ hx1 hx2 hnol

/-- Counterexample to claim C6 as stated: in the modelled 2024 fall-back
zone, the instant 30 minutes after the transition (far more than one minute
away from it and from every segment boundary) round-trips to `ts - 1h`, not
`ts`, because its local instant lies in the repeated hour. -/
theorem C6_counterexample :
    (1730451600000 : Int) ≤ 1730626200000 ∧ (1730626200000 : Int) ≤ 1730797200000 ∧
    (1730626200000 : Int) - 1730624400000 > MINUTE_MS ∧
    (∀ s ∈ (buildOffsetSegments laFallTz 1730451600000 1730797200000).drop 1,
      MINUTE_MS < 1730626200000 - s.start ∨ MINUTE_MS < s.start - 1730626200000) ∧
    getUtcForLocal
      (getLocalOf 1730626200000 (buildOffsetSegments laFallTz 1730451600000 1730797200000))
      (buildOffsetSegments laFallTz 1730451600000 1730797200000) ≠ 1730626200000 := by
  refine ⟨by decide, by decide, by decide, by decide, by decide⟩

/-- Witness for C6 in the modelled 2024 fall-back zone, two hours after the
transition (outside the repeated hour). -/
theorem C6_witness :
    ((1730451600000 : Int) ≤ 1730797200000 ∧ (1730451600000 : Int) ≤ 1730631600000 ∧
      (1730631600000 : Int) ≤ 1730797200000 ∧
      (∀ s ∈ buildOffsetSegments laFallTz 1730451600000 1730797200000,
        s.stop ≤ 1730631600000 →
        segMatches (getLocalOf 1730631600000
          (buildOffsetSegments laFallTz 1730451600000 1730797200000)) s = false)) ∧
    getUtcForLocal
      (getLocalOf 1730631600000 (buildOffsetSegments laFallTz 1730451600000 1730797200000))
      (buildOffsetSegments laFallTz 1730451600000 1730797200000) = 1730631600000 :=
  ⟨⟨by decide, by decide, by decide, by decide⟩,
    C6_getUtcForLocal_roundTrip laFallTz 1730451600000 1730797200000 1730631600000
      (by decide) (by decide) (by decide) (by decide)⟩

/-- Claim C7: for every well-formed segment list and every monotonically
non-decreasing sequence of query timestamps within the list's range, running
`getOffsetForTs` over the queries with a shared cursor initialized to 0
returns, for each query, exactly the offset `getOffsetAt` returns for that
timestamp; and the cursor only ever advances forward. -/
theorem C7_getOffsetForTs_refines_getOffsetAt (segments : List OffsetSegment)
    (qs : List Int) (hwf : SegsWF segments)
    (hmono : List.Chain' (fun a b => a ≤ b) qs)
    (hrange : ∀ q ∈ qs, segsStart segments ≤ q ∧ q < segsStop segments) :
    (runOffsets segments qs 0).1 = qs.map (fun q => getOffsetAt q segments) ∧
    (∀ ts i, i ≤ (getOffsetForTs ts segments i).2) := by
  have hlen : 0 < segments.length := by
    cases segments with
    | nil => exact absurd rfl hwf.1
    | cons s r => simp
  refine ⟨?_, fun ts i => advanceIdx_ge ts segments segments.length i⟩
  have hstart : qs ≠ [] → (segments.getD 0 default).start ≤ qs.headI := by
    intro hq
    cases qs with
    | nil => exact absurd rfl hq
    | cons q rest =>
      have := (hrange q (by simp)).1
      rw [segsStart_eq_getD_zero segments hwf.1] at this
      simpa [List.headI] using this
  exact (runOffsets_spec segments hwf qs 0 hlen hmono hrange hstart).1

/-- Witness for C7 on the modelled 2024 fall-back segments and a sorted
query sequence crossing the transition. -/
theorem C7_witness :
    (SegsWF (buildOffsetSegments laFallTz 1730451600000 1730797200000) ∧
      List.Chain' (fun a b => a ≤ b)
        [(1730451600000 : Int), 1730620800000, 1730628000000, 1730797200000] ∧
      (∀ q ∈ [(1730451600000 : Int), 1730620800000, 1730628000000, 1730797200000],
        segsStart (buildOffsetSegments laFallTz 1730451600000 1730797200000) ≤ q ∧
        q < segsStop (buildOffsetSegments laFallTz 1730451600000 1730797200000))) ∧
    (runOffsets (buildOffsetSegments laFallTz 1730451600000 1730797200000)
        [1730451600000, 1730620800000, 1730628000000, 1730797200000] 0).1 =
      [(1730451600000 : Int), 1730620800000, 1730628000000, 1730797200000].map
        (fun q => getOffsetAt q (buildOffsetSegments laFallTz 1730451600000 1730797200000)) ∧
    (∀ ts i, i ≤ (getOffsetForTs ts
      (buildOffsetSegments laFallTz 1730451600000 1730797200000) i).2) :=
  ⟨⟨by decide, by decide, by decide⟩,
    C7_getOffsetForTs_refines_getOffsetAt _ _ (by decide) (by decide) (by decide)⟩

/-- Claim C3 (corrected): with a constant UTC−8 offset, the event at `t = 0`
has local time 16:00 on the prior local day (local day number −1) and the
event at `t = 23*3600*1000` has local time 15:00 on local day 0 — they fall
in two different local calendar days (23 real hours apart, crossing local
midnight), and `processChartData` with granularity `1d` places them in two
consecutive one-event buckets, not one. -/
theorem C3_two_local_days :
    hourOfLocal (getLocalOf 0
      (chartDaySegments (tzConst (-28800000)) 82800000 ⟨0, some 5, none, 1, none⟩
        [⟨82800000, some 3, none, 2, none⟩])) = 16 ∧
    hourOfLocal (getLocalOf 82800000
      (chartDaySegments (tzConst (-28800000)) 82800000 ⟨0, some 5, none, 1, none⟩
        [⟨82800000, some 3, none, 2, none⟩])) = 15 ∧
    localDayNumber (getLocalOf 0
      (chartDaySegments (tzConst (-28800000)) 82800000 ⟨0, some 5, none, 1, none⟩
        [⟨82800000, some 3, none, 2, none⟩])) = -1 ∧
    localDayNumber (getLocalOf 82800000
      (chartDaySegments (tzConst (-28800000)) 82800000 ⟨0, some 5, none, 1, none⟩
        [⟨82800000, some 3, none, 2, none⟩])) = 0 ∧
    processChartData (tzConst (-28800000)) 82800000
      [⟨0, some 5, none, 1, none⟩, ⟨82800000, some 3, none, 2, none⟩] "1d" "all" =
      [⟨-57600000, 5, 1, 0, 6⟩, ⟨28800000, 3, 2, 0, 5⟩] := by
  refine ⟨by decide, by decide, by decide, by decide, by decide⟩

/-- Counterexample to claim C3 as stated: the two events' local calendar
days differ (day numbers −1 and 0), and `1d` bucketing emits two buckets,
not one. -/
theorem C3_counterexample :
    localDayNumber (getLocalOf 0
      (chartDaySegments (tzConst (-28800000)) 82800000 ⟨0, some 5, none, 1, none⟩
        [⟨82800000, some 3, none, 2, none⟩])) ≠
    localDayNumber (getLocalOf 82800000
      (chartDaySegments (tzConst (-28800000)) 82800000 ⟨0, some 5, none, 1, none⟩
        [⟨82800000, some 3, none, 2, none⟩])) ∧
    (processChartData (tzConst (-28800000)) 82800000
      [⟨0, some 5, none, 1, none⟩, ⟨82800000, some 3, none, 2, none⟩] "1d" "all").length ≠ 1 := by
  refine ⟨by decide, by decide⟩

/-- Claim C10: the category filter is applied per event before accumulation,
through `applyChartFilter` in both paths of `processChartData` and through
`heatFilterTotal` in `processHeatMaps`: `all` keeps the three counts
unchanged, `zeroEtv` zeroes ai and last-chance retaining only zero-ETV, and
`afa` zeroes ai and zero-ETV retaining only last-chance. -/
theorem C10_filter_semantics :
    (∀ ai lastChance zeroEtv : Int,
      applyChartFilter "all" ai lastChance zeroEtv = (ai, lastChance, zeroEtv) ∧
      applyChartFilter "zeroEtv" ai lastChance zeroEtv = (0, 0, zeroEtv) ∧
      applyChartFilter "afa" ai lastChance zeroEtv = (0, lastChance, 0)) ∧
    (∀ item : HistoryItem,
      heatFilterTotal "all" item = getAiCount item + item.last_chance ∧
      heatFilterTotal "zeroEtv" item = getZeroEtvCount item ∧
      heatFilterTotal "afa" item = item.last_chance) := by
  refine ⟨fun ai lc ze => ⟨rfl, rfl, rfl⟩, fun item => ⟨rfl, rfl, rfl⟩⟩

lemma foldl_filter_skip {β : Type} (cutoff : Int) (f : β → HistoryItem → β)
    (hskip : ∀ acc item, item.t ≤ cutoff → f acc item = acc) :
    ∀ (hist : List HistoryItem) (init : β),
      hist.foldl f init = (hist.filter (fun e => decide (cutoff < e.t))).foldl f init := by
  intro hist
  induction hist with
  | nil => intro init; rfl
  | cons a r ih =>
    intro init
    by_cases ha : a.t ≤ cutoff
    · have hfa : (decide (cutoff < a.t)) = false := by
        simp only [decide_eq_false_iff_not]
        omega
      simp only [List.foldl_cons, List.filter_cons, hfa]
      rw [hskip init a ha]
      exact ih init
    · have hfa : (decide (cutoff < a.t)) = true := by
        simp only [decide_eq_true_eq]
        omega
      simp only [List.foldl_cons, List.filter_cons, hfa]
      exact ih (f init a)

lemma heatMinMax_skip (cutoff : Int) (hist : List HistoryItem) :
    heatMinMax cutoff hist =
      heatMinMax cutoff (hist.filter (fun e => decide (cutoff < e.t))) := by
  unfold heatMinMax
  exact foldl_filter_skip cutoff _ (fun acc item h => by simp [if_pos h]) hist _

/-- Claim C9: events at or before the 365-day cutoff are dropped from every
accumulation of `processHeatMaps` (the output equals the output on the
filtered history), and when no events survive the cutoff the result is the
empty weekly map, two all-zero 7×24 matrices, and maxima floored at 1. -/
theorem C9_heatmap_cutoff (tz : Int → Int) (now : Int) (history : List HistoryItem)
    (filter : String) :
    processHeatMaps tz now history filter =
      processHeatMaps tz now
        (history.filter (fun e => decide (heatCutoff now < e.t))) filter ∧
    ((∀ e ∈ history, e.t ≤ heatCutoff now) →
      processHeatMaps tz now history filter = emptyHeatMapData) := by
  have hmm := heatMinMax_skip (heatCutoff now) history
  have hsegs : heatSegments tz now history =
      heatSegments tz now (history.filter (fun e => decide (heatCutoff now < e.t))) := by
    unfold heatSegments
    rw [hmm]
  have hminw : heatMinWeekKey tz now history =
      heatMinWeekKey tz now (history.filter (fun e => decide (heatCutoff now < e.t))) := by
    unfold heatMinWeekKey
    rw [hmm, hsegs]
  have hmaxw : heatMaxWeekKey tz now history =
      heatMaxWeekKey tz now (history.filter (fun e => decide (heatCutoff now < e.t))) := by
    unfold heatMaxWeekKey
    rw [hmm, hsegs]
  have hwc : heatWeekCount tz now history =
      heatWeekCount tz now (history.filter (fun e => decide (heatCutoff now < e.t))) := by
    unfold heatWeekCount
    rw [hminw, hmaxw]
  have hacc : heatAcc tz now filter history =
      heatAcc tz now filter (history.filter (fun e => decide (heatCutoff now < e.t))) := by
    unfold heatAcc
    rw [← hsegs, ← hminw, ← hwc]
    exact foldl_filter_skip (heatCutoff now) _
      (fun acc item h => by unfold heatStep; rw [if_pos h]) history _
  constructor
  · unfold processHeatMaps
    rw [← hmm, ← hwc, ← hacc]
  · intro hall
    have hfe : history.filter (fun e => decide (heatCutoff now < e.t)) = [] := by
      rw [List.filter_eq_nil_iff]
      intro e he
      simp only [decide_eq_true_eq]
      have := hall e he
      omega
    have hmm0 : heatMinMax (heatCutoff now) history = (MAX_SAFE_INTEGER, 0) := by
      rw [hmm, hfe]
      rfl
    have hcond : (heatMinMax (heatCutoff now) history).1 = MAX_SAFE_INTEGER := by
      rw [hmm0]
    unfold processHeatMaps
    rw [if_pos hcond]

/-- Witness for C9 with one surviving and one dropped event, and the
all-dropped empty case. -/
theorem C9_witness :
    (processHeatMaps (tzConst 0) (40000000000 : Int)
        [⟨1000, some 2, none, 1, none⟩, ⟨39999999999, some 3, none, 0, none⟩] "all" =
      processHeatMaps (tzConst 0) 40000000000
        ([⟨1000, some 2, none, 1, none⟩, ⟨39999999999, some 3, none, 0, none⟩].filter
          (fun e => decide (heatCutoff 40000000000 < e.t))) "all") ∧
    ((∀ e ∈ [(⟨1000, some 2, none, 1, none⟩ : HistoryItem)],
        e.t ≤ heatCutoff 40000000000) →
      processHeatMaps (tzConst 0) 40000000000
        [⟨1000, some 2, none, 1, none⟩] "all" = emptyHeatMapData) ∧
    processHeatMaps (tzConst 0) 40000000000
        [⟨1000, some 2, none, 1, none⟩] "all" = emptyHeatMapData :=
  ⟨(C9_heatmap_cutoff (tzConst 0) 40000000000
      [⟨1000, some 2, none, 1, none⟩, ⟨39999999999, some 3, none, 0, none⟩] "all").1,
    (C9_heatmap_cutoff (tzConst 0) 40000000000
      [⟨1000, some 2, none, 1, none⟩] "all").2,
    (C9_heatmap_cutoff (tzConst 0) 40000000000
      [⟨1000, some 2, none, 1, none⟩] "all").2 (by decide)⟩

lemma fixedBuckets_dates (filter : String) (Δ : Int) (hd : 0 < Δ) :
    ∀ (d : Nat) (cursor : Int) (hist : List HistoryItem),
      (fixedBuckets filter Δ (cursor + Δ * (d : Int)) (d + 1) cursor hist).map
          (fun p => p.date) =
        (List.range (d + 1)).map (fun i : Nat => cursor + Δ * (i : Int)) := by
  intro d
  induction d with
  | zero =>
    intro cursor hist
    simp [fixedBuckets, List.range_succ]
  | succ d ih =>
    intro cursor hist
    have hcond : cursor ≤ cursor + Δ * (((d + 1 : Nat)) : Int) := by
      push_cast
      nlinarith
    conv_lhs => rw [fixedBuckets]
    rw [if_pos hcond]
    simp only [List.map_cons]
    have harg : cursor + Δ * (((d + 1 : Nat)) : Int) = (cursor + Δ) + Δ * (d : Int) := by
      push_cast
      ring
    rw [harg, ih (cursor + Δ)]
    rw [List.range_succ_eq_map (d + 1)]
    simp only [List.map_cons, List.map_map, Nat.cast_zero, mul_zero, add_zero]
    refine congrArg _ (List.map_congr_left ?_)
    intro i hi
    simp only [Function.comp_apply, Nat.cast_succ]
    ring

lemma collectFixed_no_events (filter : String) (cursor bEnd : Int) :
    ∀ (hist : List HistoryItem) (a l z : Int),
      (∀ e ∈ hist, ¬(cursor ≤ e.t ∧ e.t < bEnd)) →
      (collectFixed filter cursor bEnd hist a l z).1 = (a, l, z) := by
  intro hist
  induction hist with
  | nil => intro a l z _; rfl
  | cons item r ih =>
    intro a l z hno
    have hitem := hno item (by simp)
    simp only [collectFixed]
    by_cases hlt : item.t < bEnd
    · rw [if_pos hlt]
      have hcur : ¬ cursor ≤ item.t := fun hc => hitem ⟨hc, hlt⟩
      rw [if_neg hcur]
      exact ih a l z (fun e he => hno e (by simp [he]))
    · rw [if_neg hlt]

lemma collectFixed_sublist (filter : String) (cursor bEnd : Int) :
    ∀ (hist : List HistoryItem) (a l z : Int),
      ((collectFixed filter cursor bEnd hist a l z).2).Sublist hist := by
  intro hist
  induction hist with
  | nil => intro a l z; simp [collectFixed]
  | cons item r ih =>
    intro a l z
    simp only [collectFixed]
    by_cases hlt : item.t < bEnd
    · rw [if_pos hlt]
      by_cases hcur : cursor ≤ item.t
      · rw [if_pos hcur]
        exact (ih _ _ _).cons item
      · rw [if_neg hcur]
        exact (ih _ _ _).cons item
    · rw [if_neg hlt]

lemma fixedBuckets_empty_zero (filter : String) (Δ endBucket : Int)
    (full : List HistoryItem) :
    ∀ (fuel : Nat) (cursor : Int) (hist : List HistoryItem), hist.Sublist full →
      ∀ p ∈ fixedBuckets filter Δ endBucket fuel cursor hist,
        (∀ e ∈ full, ¬(p.date ≤ e.t ∧ e.t < p.date + Δ)) →
        p.ai = 0 ∧ p.lastChance = 0 ∧ p.zeroEtv = 0 ∧ p.total = 0 := by
  intro fuel
  induction fuel with
  | zero => intro cursor hist _ p hp; cases hp
  | succ n ih =>
    intro cursor hist hsub p hp hno
    rw [fixedBuckets] at hp
    by_cases hcond : cursor ≤ endBucket
    · rw [if_pos hcond] at hp
      simp only [List.mem_cons] at hp
      rcases hp with hp | hp
      · have hzero : (collectFixed filter cursor (cursor + Δ) hist 0 0 0).1 = (0, 0, 0) := by
          apply collectFixed_no_events
          intro e he hbad
          have hef : e ∈ full := hsub.mem he
          have hdate : p.date = cursor := by rw [hp]
          exact hno e hef (by rw [hdate]; exact hbad)
        rw [hp]
        simp only [hzero]
        norm_num
      · exact ih (cursor + Δ) _ ((collectFixed_sublist filter cursor (cursor + Δ)
          hist 0 0 0).trans hsub) p hp hno
    · rw [if_neg hcond] at hp
      cases hp

lemma dayBuckets_dates (filter : String) (segs : List OffsetSegment) :
    ∀ (m : Nat) (c : Int) (hist : List HistoryItem) (oi : Nat),
      (dayBuckets filter segs (c + (m : Int)) (m + 1) c hist oi).map (fun p => p.date) =
        (List.range (m + 1)).map (fun i : Nat => dayBucketStart segs (c + (i : Int))) := by
  intro m
  induction m with
  | zero =>
    intro c hist oi
    simp [dayBuckets, List.range_succ]
  | succ m ih =>
    intro c hist oi
    have hcond : c ≤ c + (((m + 1 : Nat)) : Int) := by push_cast; omega
    conv_lhs => rw [dayBuckets]
    rw [if_pos hcond]
    simp only [List.map_cons]
    have harg : c + (((m + 1 : Nat)) : Int) = (c + 1) + (m : Int) := by push_cast; ring
    rw [harg, ih (c + 1)]
    rw [List.range_succ_eq_map (m + 1)]
    simp only [List.map_cons, List.map_map, Nat.cast_zero, add_zero]
    refine congrArg _ (List.map_congr_left ?_)
    intro i hi
    simp only [Function.comp_apply, Nat.cast_succ]
    ring_nf

lemma sorted_pairwise (l : List HistoryItem) (h : sortedByT l) :
    List.Pairwise (fun a b : HistoryItem => a.t ≤ b.t) l := by
  induction l with
  | nil => exact List.Pairwise.nil
  | cons a r ih =>
    cases r with
    | nil => exact List.pairwise_singleton _ a
    | cons b r' =>
      have hab : a.t ≤ b.t := (List.chain'_cons.mp h).1
      have htail := ih (List.Chain'.tail h)
      refine List.pairwise_cons.mpr ⟨?_, htail⟩
      intro x hx
      simp only [List.mem_cons] at hx
      rcases hx with hx | hx
      · subst hx; exact hab
      · have := (List.pairwise_cons.mp htail).1 x hx
        omega

lemma sorted_le_getLastD (l : List HistoryItem) :
    ∀ (d : HistoryItem), sortedByT l → ∀ e ∈ l, e.t ≤ (l.getLastD d).t := by
  induction l with
  | nil => intro d _ e he; cases he
  | cons a r ih =>
    intro d h e he
    simp only [List.getLastD_cons]
    simp only [List.mem_cons] at he
    cases r with
    | nil =>
      rcases he with he | he
      · subst he; simp [List.getLastD]
      · cases he
    | cons b r' =>
      have hab : a.t ≤ b.t := (List.chain'_cons.mp h).1
      have htail : sortedByT (b :: r') := List.Chain'.tail h
      rcases he with he | he
      · rw [he]
        have hb := ih a htail b (by simp)
        omega
      · exact ih a htail e he

lemma sorted_first_le_last (first : HistoryItem) (rest : List HistoryItem)
    (h : sortedByT (first :: rest)) : first.t ≤ (lastItemOf first rest).t :=
  sorted_le_getLastD (first :: rest) first h first (by simp)

lemma sorted_le_last (first : HistoryItem) (rest : List HistoryItem)
    (h : sortedByT (first :: rest)) :
    ∀ e ∈ (first :: rest), e.t ≤ (lastItemOf first rest).t :=
  sorted_le_getLastD (first :: rest) first h

lemma sorted_first_le (first : HistoryItem) (rest : List HistoryItem)
    (h : sortedByT (first :: rest)) : ∀ e ∈ (first :: rest), first.t ≤ e.t := by
  intro e he
  have hp := sorted_pairwise _ h
  simp only [List.mem_cons] at he
  rcases he with he | he
  · subst he; exact le_rfl
  · exact (List.pairwise_cons.mp hp).1 e he

lemma chartInterval_pos (g : String) : 0 < chartInterval g := by
  unfold chartInterval
  have h1 : (0 : Int) < MINUTE_MS := MINUTE_MS_pos
  have h2 : (0 : Int) < HOUR_MS := by norm_num [HOUR_MS, MINUTE_MS]
  have h3 : (0 : Int) < DAY_MS := DAY_MS_pos
  split
  · omega
  · split
    · omega
    · omega

lemma fixedPath_dates (filter : String) (Δ : Int) (hd : 0 < Δ) (t0 endTime : Int)
    (h : t0 ≤ endTime) (hist : List HistoryItem) :
    (fixedBuckets filter Δ (Int.fdiv endTime Δ * Δ)
        ((Int.fdiv (Int.fdiv endTime Δ * Δ - Int.fdiv t0 Δ * Δ) Δ).toNat + 1)
        (Int.fdiv t0 Δ * Δ) hist).map (fun p => p.date) =
      (List.range ((Int.fdiv endTime Δ - Int.fdiv t0 Δ).toNat + 1)).map
        (fun i : Nat => Int.fdiv t0 Δ * Δ + Δ * (i : Int)) := by
  have hf1 : Int.fdiv t0 Δ = t0 / Δ := Int.fdiv_eq_ediv _ (by omega)
  have hf2 : Int.fdiv endTime Δ = endTime / Δ := Int.fdiv_eq_ediv _ (by omega)
  have hk : Int.fdiv t0 Δ ≤ Int.fdiv endTime Δ := by
    rw [hf1, hf2]
    exact Int.ediv_le_ediv hd h
  have hdn : (0 : Int) ≤ Int.fdiv endTime Δ - Int.fdiv t0 Δ := by omega
  have hcast : (((Int.fdiv endTime Δ - Int.fdiv t0 Δ).toNat : Nat) : Int) =
      Int.fdiv endTime Δ - Int.fdiv t0 Δ := Int.toNat_of_nonneg hdn
  have hdiff : Int.fdiv endTime Δ * Δ - Int.fdiv t0 Δ * Δ =
      (Int.fdiv endTime Δ - Int.fdiv t0 Δ) * Δ := by ring
  have hfu : Int.fdiv (Int.fdiv endTime Δ * Δ - Int.fdiv t0 Δ * Δ) Δ =
      Int.fdiv endTime Δ - Int.fdiv t0 Δ := by
    rw [hdiff, Int.fdiv_eq_ediv _ (by omega), Int.mul_ediv_cancel _ (by omega)]
  have hend : Int.fdiv endTime Δ * Δ =
      Int.fdiv t0 Δ * Δ + Δ * (((Int.fdiv endTime Δ - Int.fdiv t0 Δ).toNat : Nat) : Int) := by
    rw [hcast]
    ring
  rw [hfu, hend]
  exact fixedBuckets_dates filter Δ hd _ (Int.fdiv t0 Δ * Δ) hist

/-- Claim C2: the bucket list of `processChartData` is gap-free for every
sorted non-empty history.  Fixed-duration path (`15m`/`1h`): the emitted
`date`s form exactly the arithmetic progression of interval multiples from
`⌊firstEventTime/interval⌋·interval` through
`⌊max(now, lastEventTime)/interval⌋·interval` (so consecutive dates differ
by exactly the interval and every bucket in the range appears), and a bucket
whose interval contains no event has all-zero sums.  Day path (`1d`): the
buckets correspond exactly to the consecutive local day keys from the first
event's key through `endTime`'s key (consecutive buckets' keys differ by
exactly 1), each plotted at that key's local-midnight instant. -/
theorem C2_bucketing_gap_free (tz : Int → Int) (now : Int) (first : HistoryItem)
    (rest : List HistoryItem) (filter g : String)
    (hsorted : sortedByT (first :: rest)) :
    ((g = "15m" ∨ g = "1h") →
      ((processChartData tz now (first :: rest) g filter).map (fun p => p.date) =
        (List.range ((Int.fdiv (chartEndTime now first rest) (chartInterval g) -
            Int.fdiv first.t (chartInterval g)).toNat + 1)).map
          (fun i : Nat => Int.fdiv first.t (chartInterval g) * chartInterval g +
            chartInterval g * (i : Int)) ∧
       (∀ p ∈ processChartData tz now (first :: rest) g filter,
         (∀ e ∈ (first :: rest), ¬(p.date ≤ e.t ∧ e.t < p.date + chartInterval g)) →
         p.ai = 0 ∧ p.lastChance = 0 ∧ p.zeroEtv = 0 ∧ p.total = 0))) ∧
    (g = "1d" →
      (processChartData tz now (first :: rest) g filter).map (fun p => p.date) =
        (List.range ((dayKeyAt (chartDaySegments tz now first rest)
            (chartEndTime now first rest) + 1 -
            dayKeyAt (chartDaySegments tz now first rest) first.t).toNat)).map
          (fun i : Nat => dayBucketStart (chartDaySegments tz now first rest)
            (dayKeyAt (chartDaySegments tz now first rest) first.t + (i : Int)))) := by
  have hfe : first.t ≤ chartEndTime now first rest :=
    le_trans (sorted_first_le_last first rest hsorted) (le_max_right _ _)
  constructor
  · intro hg
    have hne : ¬ g = "1d" := by rcases hg with rfl | rfl <;> decide
    have hunfold : processChartData tz now (first :: rest) g filter =
        fixedBuckets filter (chartInterval g)
          (Int.fdiv (chartEndTime now first rest) (chartInterval g) * chartInterval g)
          ((Int.fdiv (Int.fdiv (chartEndTime now first rest) (chartInterval g) *
              chartInterval g -
              Int.fdiv first.t (chartInterval g) * chartInterval g)
            (chartInterval g)).toNat + 1)
          (Int.fdiv first.t (chartInterval g) * chartInterval g) (first :: rest) := by
      simp only [processChartData]
      rw [if_neg hne]
    constructor
    · rw [hunfold]
      exact fixedPath_dates filter (chartInterval g) (chartInterval_pos g)
        first.t (chartEndTime now first rest) hfe (first :: rest)
    · intro p hp hno
      rw [hunfold] at hp
      exact fixedBuckets_empty_zero filter (chartInterval g) _ (first :: rest) _ _
        (first :: rest) (List.Sublist.refl _) p hp hno
  · intro hgd
    subst hgd
    have hunfold : processChartData tz now (first :: rest) "1d" filter =
        dayBuckets filter (chartDaySegments tz now first rest)
          (dayKeyAt (chartDaySegments tz now first rest) (chartEndTime now first rest))
          ((dayKeyAt (chartDaySegments tz now first rest) (chartEndTime now first rest) + 1 -
            dayKeyAt (chartDaySegments tz now first rest) first.t).toNat)
          (dayKeyAt (chartDaySegments tz now first rest) first.t) (first :: rest) 0 := by
      simp only [processChartData, if_true]
      rfl
    rw [hunfold]
    set segs := chartDaySegments tz now first rest
    set sk := dayKeyAt segs first.t with hsk
    set ek := dayKeyAt segs (chartEndTime now first rest) with hek
    by_cases hse : sk ≤ ek
    · have hm : ((ek - sk).toNat : Int) = ek - sk := Int.toNat_of_nonneg (by omega)
      have hfuel : (ek + 1 - sk).toNat = (ek - sk).toNat + 1 := by omega
      have hend : sk + ((ek - sk).toNat : Int) = ek := by omega
      rw [hfuel]
      have hdd := dayBuckets_dates filter segs (ek - sk).toNat sk (first :: rest) 0
      rw [hend] at hdd
      exact hdd
    · have hfuel : (ek + 1 - sk).toNat = 0 := by omega
      rw [hfuel]
      simp [dayBuckets]

/-- Witness for C2 on a two-event sorted history with hour granularity. -/
theorem C2_witness :
    sortedByT [⟨0, some 1, none, 0, none⟩, ⟨3600000, some 2, none, 1, none⟩] ∧
    ((("1h" = "15m" ∨ "1h" = "1h") →
      ((processChartData (tzConst 0) 7200000
          [⟨0, some 1, none, 0, none⟩, ⟨3600000, some 2, none, 1, none⟩] "1h" "all").map
            (fun p => p.date) =
        (List.range ((Int.fdiv (chartEndTime 7200000 ⟨0, some 1, none, 0, none⟩
              [⟨3600000, some 2, none, 1, none⟩]) (chartInterval "1h") -
            Int.fdiv (HistoryItem.t ⟨0, some 1, none, 0, none⟩)
              (chartInterval "1h")).toNat + 1)).map
          (fun i : Nat => Int.fdiv (HistoryItem.t ⟨0, some 1, none, 0, none⟩)
              (chartInterval "1h") * chartInterval "1h" +
            chartInterval "1h" * (i : Int)) ∧
       (∀ p ∈ processChartData (tzConst 0) 7200000
          [⟨0, some 1, none, 0, none⟩, ⟨3600000, some 2, none, 1, none⟩] "1h" "all",
         (∀ e ∈ [(⟨0, some 1, none, 0, none⟩ : HistoryItem),
             ⟨3600000, some 2, none, 1, none⟩],
           ¬(p.date ≤ e.t ∧ e.t < p.date + chartInterval "1h")) →
         p.ai = 0 ∧ p.lastChance = 0 ∧ p.zeroEtv = 0 ∧ p.total = 0))) ∧
     (("1h" = "1d") →
      (processChartData (tzConst 0) 7200000
          [⟨0, some 1, none, 0, none⟩, ⟨3600000, some 2, none, 1, none⟩] "1h" "all").map
            (fun p => p.date) =
        (List.range ((dayKeyAt (chartDaySegments (tzConst 0) 7200000
              ⟨0, some 1, none, 0, none⟩ [⟨3600000, some 2, none, 1, none⟩])
            (chartEndTime 7200000 ⟨0, some 1, none, 0, none⟩
              [⟨3600000, some 2, none, 1, none⟩]) + 1 -
            dayKeyAt (chartDaySegments (tzConst 0) 7200000 ⟨0, some 1, none, 0, none⟩
              [⟨3600000, some 2, none, 1, none⟩])
            (HistoryItem.t ⟨0, some 1, none, 0, none⟩)).toNat)).map
          (fun i : Nat => dayBucketStart (chartDaySegments (tzConst 0) 7200000
              ⟨0, some 1, none, 0, none⟩ [⟨3600000, some 2, none, 1, none⟩])
            (dayKeyAt (chartDaySegments (tzConst 0) 7200000 ⟨0, some 1, none, 0, none⟩
              [⟨3600000, some 2, none, 1, none⟩])
              (HistoryItem.t ⟨0, some 1, none, 0, none⟩) + (i : Int))))) :=
  ⟨by decide,
    C2_bucketing_gap_free (tzConst 0) 7200000 ⟨0, some 1, none, 0, none⟩
      [⟨3600000, some 2, none, 1, none⟩] "all" "1h" (by decide)⟩

lemma applyChartFilter_all (ai lc ze : Int) :
    applyChartFilter "all" ai lc ze = (ai, lc, ze) := rfl

lemma collectFixed_all_spec (cursor bEnd : Int) :
    ∀ (hist : List HistoryItem) (a l z : Int),
      sortedByT hist → (∀ e ∈ hist, cursor ≤ e.t) →
      ∃ pre, hist = pre ++ (collectFixed "all" cursor bEnd hist a l z).2 ∧
        (∀ e ∈ pre, e.t < bEnd) ∧
        (∀ e ∈ (collectFixed "all" cursor bEnd hist a l z).2, bEnd ≤ e.t) ∧
        ((collectFixed "all" cursor bEnd hist a l z).1).1 +
          ((collectFixed "all" cursor bEnd hist a l z).1).2.1 =
          a + l + (pre.map evTotal).sum := by
  intro hist
  induction hist with
  | nil =>
    intro a l z _ _
    exact ⟨[], rfl, by simp, by simp [collectFixed], by simp [collectFixed]⟩
  | cons item r ih =>
    intro a l z hsorted hcur
    by_cases hlt : item.t < bEnd
    · have hc : cursor ≤ item.t := hcur item (by simp)
      have hstep : collectFixed "all" cursor bEnd (item :: r) a l z =
          collectFixed "all" cursor bEnd r (a + getAiCount item) (l + item.last_chance)
            (z + getZeroEtvCount item) := by
        simp only [collectFixed, if_pos hlt, if_pos hc, applyChartFilter_all]
      obtain ⟨pre, hsplit, hpre, hrem, hsum⟩ :=
        ih (a + getAiCount item) (l + item.last_chance) (z + getZeroEtvCount item)
          (List.Chain'.tail hsorted) (fun e he => hcur e (by simp [he]))
      refine ⟨item :: pre, ?_, ?_, ?_, ?_⟩
      · rw [hstep, List.cons_append, ← hsplit]
      · intro e he
        simp only [List.mem_cons] at he
        rcases he with he | he
        · rw [he]; exact hlt
        · exact hpre e he
      · rw [hstep]; exact hrem
      · rw [hstep, hsum]
        simp only [List.map_cons, List.sum_cons, evTotal]
        ring
    · have hstep : collectFixed "all" cursor bEnd (item :: r) a l z =
          ((a, l, z), item :: r) := by
        simp only [collectFixed, if_neg hlt]
      refine ⟨[], by simp [hstep], by simp, ?_, by simp [hstep]⟩
      rw [hstep]
      intro e he
      simp only [List.mem_cons] at he
      rcases he with he | he
      · rw [he]; omega
      · have := sorted_first_le item r hsorted e (by simp [he])
        omega

lemma fixedBuckets_all_sum (Δ : Int) (hd : 0 < Δ) :
    ∀ (d : Nat) (cursor : Int) (hist : List HistoryItem),
      sortedByT hist → (∀ e ∈ hist, cursor ≤ e.t) →
      (∀ e ∈ hist, e.t < cursor + Δ * (d : Int) + Δ) →
      ((fixedBuckets "all" Δ (cursor + Δ * (d : Int)) (d + 1) cursor hist).map
        (fun p => p.total)).sum = (hist.map evTotal).sum := by
  intro d
  induction d with
  | zero =>
    intro cursor hist hsorted hlow hup
    obtain ⟨pre, hsplit, hpre, hrem, hsum⟩ :=
      collectFixed_all_spec cursor (cursor + Δ) hist 0 0 0 hsorted hlow
    have hremnil : (collectFixed "all" cursor (cursor + Δ) hist 0 0 0).2 = [] := by
      cases hr : (collectFixed "all" cursor (cursor + Δ) hist 0 0 0).2 with
      | nil => rfl
      | cons x xs =>
        have hx : x ∈ hist := by rw [hsplit, hr]; simp
        have h1 := hrem x (by rw [hr]; simp)
        have h2 := hup x hx
        simp only [Nat.cast_zero, mul_zero, add_zero] at h2
        omega
    have hpref : pre = hist := by
      rw [hsplit, hremnil, List.append_nil]
    simp only [fixedBuckets, Nat.cast_zero, mul_zero, add_zero, le_refl, if_true,
      List.map_cons, List.map_nil, List.sum_cons, List.sum_nil]
    rw [hsum, hpref]
    ring
  | succ d ih =>
    intro cursor hist hsorted hlow hup
    obtain ⟨pre, hsplit, hpre, hrem, hsum⟩ :=
      collectFixed_all_spec cursor (cursor + Δ) hist 0 0 0 hsorted hlow
    have hcond : cursor ≤ cursor + Δ * (((d + 1 : Nat)) : Int) := by
      push_cast
      nlinarith
    conv_lhs => rw [fixedBuckets]
    rw [if_pos hcond]
    simp only [List.map_cons, List.sum_cons]
    set rem := (collectFixed "all" cursor (cursor + Δ) hist 0 0 0).2 with hremdef
    have hsortedrem : sortedByT rem := by
      have : sortedByT (pre ++ rem) := by rw [← hsplit]; exact hsorted
      exact (List.chain'_append.mp this).2.1
    have hlowrem : ∀ e ∈ rem, cursor + Δ ≤ e.t := hrem
    have huprem : ∀ e ∈ rem, e.t < (cursor + Δ) + Δ * (d : Int) + Δ := by
      intro e he
      have hx : e ∈ hist := by rw [hsplit]; simp [he]
      have := hup e hx
      push_cast at this
      nlinarith
    have harg : cursor + Δ * (((d + 1 : Nat)) : Int) = (cursor + Δ) + Δ * (d : Int) := by
      push_cast
      ring
    rw [harg]
    rw [ih (cursor + Δ) rem hsortedrem hlowrem huprem]
    rw [hsum]
    have : (hist.map evTotal).sum = (pre.map evTotal).sum + (rem.map evTotal).sum := by
      rw [hsplit, List.map_append, List.sum_append]
    rw [this]
    ring

lemma consumeDay_all_spec (segs : List OffsetSegment) (hwf : SegsWF segs)
    (cursorKey : Int) :
    ∀ (hist : List HistoryItem) (oi : Nat) (a l z : Int),
      sortedByT hist →
      (∀ e ∈ hist, segsStart segs ≤ e.t ∧ e.t < segsStop segs) →
      oi < segs.length →
      (hist ≠ [] → (segs.getD oi default).start ≤ hist.headI.t) →
      ∃ pre,
        hist = pre ++ (consumeDay "all" segs cursorKey hist oi a l z).2.2 ∧
        (∀ e ∈ pre, dayKeyAt segs e.t = cursorKey) ∧
        ((consumeDay "all" segs cursorKey hist oi a l z).2.2 ≠ [] →
          dayKeyAt segs ((consumeDay "all" segs cursorKey hist oi a l z).2.2.headI).t ≠
            cursorKey) ∧
        ((consumeDay "all" segs cursorKey hist oi a l z).1).1 +
          ((consumeDay "all" segs cursorKey hist oi a l z).1).2.1 =
          a + l + (pre.map evTotal).sum ∧
        (consumeDay "all" segs cursorKey hist oi a l z).2.1 < segs.length ∧
        ((consumeDay "all" segs cursorKey hist oi a l z).2.2 ≠ [] →
          (segs.getD (consumeDay "all" segs cursorKey hist oi a l z).2.1 default).start ≤
            ((consumeDay "all" segs cursorKey hist oi a l z).2.2.headI).t) := by
  intro hist
  induction hist with
  | nil =>
    intro oi a l z _ _ hoi _
    refine ⟨[], rfl, by simp, by simp [consumeDay], by simp [consumeDay], ?_, by simp [consumeDay]⟩
    simp only [consumeDay]
    exact hoi
  | cons item r ih =>
    intro oi a l z hsorted hrange hoi hstart
    have hitemrange := hrange item (by simp)
    have hspec := getOffsetForTs_spec item.t segs hwf oi hoi
      (hstart (by simp) |>.trans_eq (by simp [List.headI]) |>.trans_eq rfl) hitemrange.2
    obtain ⟨hoff, hjlen, hjstart, hjstop, hjge⟩ := hspec
    have hkey : Int.fdiv (item.t + (getOffsetForTs item.t segs oi).1) DAY_MS =
        dayKeyAt segs item.t := by
      rw [hoff]
      rfl
    by_cases hk : dayKeyAt segs item.t = cursorKey
    · have hstep : consumeDay "all" segs cursorKey (item :: r) oi a l z =
          consumeDay "all" segs cursorKey r (getOffsetForTs item.t segs oi).2
            (a + getAiCount item) (l + item.last_chance) (z + getZeroEtvCount item) := by
        simp only [consumeDay, hkey, if_pos hk, applyChartFilter_all]
      have hstartr : r ≠ [] →
          (segs.getD (getOffsetForTs item.t segs oi).2 default).start ≤ r.headI.t := by
        intro hrne
        cases r with
        | nil => exact absurd rfl hrne
        | cons x r' =>
          have : item.t ≤ x.t := (List.chain'_cons.mp hsorted).1
          simp only [List.headI]
          omega
      obtain ⟨pre, hsplit, hpre, hremkey, hsum, hoilt, hoinext⟩ :=
        ih (getOffsetForTs item.t segs oi).2 (a + getAiCount item) (l + item.last_chance)
          (z + getZeroEtvCount item) (List.Chain'.tail hsorted)
          (fun e he => hrange e (by simp [he])) hjlen hstartr
      refine ⟨item :: pre, ?_, ?_, ?_, ?_, ?_, ?_⟩
      · rw [hstep, List.cons_append, ← hsplit]
      · intro e he
        simp only [List.mem_cons] at he
        rcases he with he | he
        · rw [he]; exact hk
        · exact hpre e he
      · rw [hstep]; exact hremkey
      · rw [hstep, hsum]
        simp only [List.map_cons, List.sum_cons, evTotal]
        ring
      · rw [hstep]; exact hoilt
      · rw [hstep]; exact hoinext
    · have hstep : consumeDay "all" segs cursorKey (item :: r) oi a l z =
          ((a, l, z), (getOffsetForTs item.t segs oi).2, item :: r) := by
        simp only [consumeDay, hkey, if_neg hk]
      refine ⟨[], by simp [hstep], by simp, ?_, by simp [hstep], ?_, ?_⟩
      · rw [hstep]
        intro _
        simp only [List.headI]
        exact hk
      · rw [hstep]
        exact hjlen
      · rw [hstep]
        intro _
        simp only [List.headI]
        exact hjstart

lemma dayBuckets_all_sum (segs : List OffsetSegment) (hwf : SegsWF segs) :
    ∀ (m : Nat) (c : Int) (hist : List HistoryItem) (oi : Nat),
      sortedByT hist →
      (∀ e ∈ hist, segsStart segs ≤ e.t ∧ e.t < segsStop segs) →
      (∀ e ∈ hist, c ≤ dayKeyAt segs e.t ∧ dayKeyAt segs e.t ≤ c + (m : Int)) →
      List.Pairwise (fun x y => dayKeyAt segs x.t ≤ dayKeyAt segs y.t) hist →
      oi < segs.length →
      (hist ≠ [] → (segs.getD oi default).start ≤ hist.headI.t) →
      ((dayBuckets "all" segs (c + (m : Int)) (m + 1) c hist oi).map
        (fun p => p.total)).sum = (hist.map evTotal).sum := by
  intro m
  induction m with
  | zero =>
    intro c hist oi hsorted hrange hkeys hkp hoi hstart
    obtain ⟨pre, hsplit, hpre, hremkey, hsum, hoilt, hoinext⟩ :=
      consumeDay_all_spec segs hwf c hist oi 0 0 0 hsorted hrange hoi hstart
    have hremnil : (consumeDay "all" segs c hist oi 0 0 0).2.2 = [] := by
      cases hr : (consumeDay "all" segs c hist oi 0 0 0).2.2 with
      | nil => rfl
      | cons x xs =>
        have hx : x ∈ hist := by rw [hsplit, hr]; simp
        have h1 := hremkey (by rw [hr]; simp)
        rw [hr] at h1
        simp only [List.headI] at h1
        have h2 := hkeys x hx
        simp only [Nat.cast_zero, add_zero] at h2
        omega
    have hpref : pre = hist := by rw [hsplit, hremnil, List.append_nil]
    simp only [dayBuckets, Nat.cast_zero, add_zero, le_refl, if_true,
      List.map_cons, List.map_nil, List.sum_cons, List.sum_nil]
    rw [hsum, hpref]
    ring
  | succ m ih =>
    intro c hist oi hsorted hrange hkeys hkp hoi hstart
    obtain ⟨pre, hsplit, hpre, hremkey, hsum, hoilt, hoinext⟩ :=
      consumeDay_all_spec segs hwf c hist oi 0 0 0 hsorted hrange hoi hstart
    have hcond : c ≤ c + (((m + 1 : Nat)) : Int) := by push_cast; omega
    conv_lhs => rw [dayBuckets]
    rw [if_pos hcond]
    simp only [List.map_cons, List.sum_cons]
    set rem := (consumeDay "all" segs c hist oi 0 0 0).2.2 with hremdef
    have hsortedrem : sortedByT rem := by
      have : sortedByT (pre ++ rem) := by rw [← hsplit]; exact hsorted
      exact (List.chain'_append.mp this).2.1
    have hrangerem : ∀ e ∈ rem, segsStart segs ≤ e.t ∧ e.t < segsStop segs :=
      fun e he => hrange e (by rw [hsplit]; simp [he])
    have hkprem : List.Pairwise (fun x y => dayKeyAt segs x.t ≤ dayKeyAt segs y.t) rem := by
      have : List.Pairwise (fun x y => dayKeyAt segs x.t ≤ dayKeyAt segs y.t)
          (pre ++ rem) := by rw [← hsplit]; exact hkp
      exact (List.pairwise_append.mp this).2.1
    have hkeysrem : ∀ e ∈ rem, c + 1 ≤ dayKeyAt segs e.t ∧
        dayKeyAt segs e.t ≤ (c + 1) + (m : Int) := by
      intro e he
      have hx : e ∈ hist := by rw [hsplit]; simp [he]
      have h2 := hkeys e hx
      push_cast at h2
      constructor
      · cases hr : rem with
        | nil => rw [hr] at he; cases he
        | cons x xs =>
          have hheadkey : dayKeyAt segs x.t ≠ c := by
            have := hremkey (by rw [hr]; simp)
            rw [hr] at this
            simpa [List.headI] using this
          have hheadmem : x ∈ hist := by rw [hsplit, hr]; simp
          have hheadlow := (hkeys x hheadmem).1
          have hxge : dayKeyAt segs x.t ≤ dayKeyAt segs e.t := by
            rw [hr] at he
            simp only [List.mem_cons] at he
            rcases he with he | he
            · rw [he]
            · have hp := List.pairwise_cons.mp (by rw [hr] at hkprem; exact hkprem)
              exact hp.1 e he
          omega
      · omega
    have hstartrem : rem ≠ [] →
        (segs.getD (consumeDay "all" segs c hist oi 0 0 0).2.1 default).start ≤
          rem.headI.t := hoinext
    have harg : c + (((m + 1 : Nat)) : Int) = (c + 1) + (m : Int) := by push_cast; ring
    rw [harg]
    rw [ih (c + 1) rem (consumeDay "all" segs c hist oi 0 0 0).2.1 hsortedrem hrangerem
      hkeysrem hkprem hoilt hstartrem]
    rw [hsum]
    have : (hist.map evTotal).sum = (pre.map evTotal).sum + (rem.map evTotal).sum := by
      rw [hsplit, List.map_append, List.sum_append]
    rw [this]
    ring

lemma fixedPath_sum (Δ : Int) (hd : 0 < Δ) (t0 endTime : Int) (h : t0 ≤ endTime)
    (hist : List HistoryItem) (hsorted : sortedByT hist)
    (hlow : ∀ e ∈ hist, t0 ≤ e.t) (hup : ∀ e ∈ hist, e.t ≤ endTime) :
    ((fixedBuckets "all" Δ (Int.fdiv endTime Δ * Δ)
        ((Int.fdiv (Int.fdiv endTime Δ * Δ - Int.fdiv t0 Δ * Δ) Δ).toNat + 1)
        (Int.fdiv t0 Δ * Δ) hist).map (fun p => p.total)).sum =
      (hist.map evTotal).sum := by
  have hf1 : Int.fdiv t0 Δ = t0 / Δ := Int.fdiv_eq_ediv _ (by omega)
  have hf2 : Int.fdiv endTime Δ = endTime / Δ := Int.fdiv_eq_ediv _ (by omega)
  have hk : Int.fdiv t0 Δ ≤ Int.fdiv endTime Δ := by
    rw [hf1, hf2]
    exact Int.ediv_le_ediv hd h
  have hdn : (0 : Int) ≤ Int.fdiv endTime Δ - Int.fdiv t0 Δ := by omega
  have hcast : (((Int.fdiv endTime Δ - Int.fdiv t0 Δ).toNat : Nat) : Int) =
      Int.fdiv endTime Δ - Int.fdiv t0 Δ := Int.toNat_of_nonneg hdn
  have hdiff : Int.fdiv endTime Δ * Δ - Int.fdiv t0 Δ * Δ =
      (Int.fdiv endTime Δ - Int.fdiv t0 Δ) * Δ := by ring
  have hfu : Int.fdiv (Int.fdiv endTime Δ * Δ - Int.fdiv t0 Δ * Δ) Δ =
      Int.fdiv endTime Δ - Int.fdiv t0 Δ := by
    rw [hdiff, Int.fdiv_eq_ediv _ (by omega), Int.mul_ediv_cancel _ (by omega)]
  have hend : Int.fdiv endTime Δ * Δ =
      Int.fdiv t0 Δ * Δ + Δ * (((Int.fdiv endTime Δ - Int.fdiv t0 Δ).toNat : Nat) : Int) := by
    rw [hcast]
    ring
  rw [hfu, hend]
  apply fixedBuckets_all_sum Δ hd _ _ hist hsorted
  · intro e he
    have h1 : Int.fdiv t0 Δ * Δ ≤ t0 := by
      rw [hf1]
      exact Int.ediv_mul_le t0 (by omega)
    have := hlow e he
    omega
  · intro e he
    have h2 := Int.ediv_add_emod endTime Δ
    have h3 := Int.emod_lt_of_pos endTime hd
    have h4 := Int.emod_nonneg endTime (b := Δ) (by omega)
    have h5 : endTime < Int.fdiv endTime Δ * Δ + Δ := by
      rw [hf2]
      nlinarith [Int.ediv_add_emod endTime Δ]
    have h6 := hup e he
    have h7 : Int.fdiv t0 Δ * Δ + Δ * (((Int.fdiv endTime Δ - Int.fdiv t0 Δ).toNat : Nat) : Int) + Δ =
        Int.fdiv endTime Δ * Δ + Δ := by
      rw [hcast]
      ring
    omega

/-- Claim C8: for every sorted non-empty history and filter `all`, the sum
of the `total` fields over all buckets of `processChartData` equals the sum
over all events of `getAiCount(e) + e.last_chance`, for each granularity
`15m`, `1h` and `1d`; for the calendar-day path the monotonicity of the
per-event local day keys (`chartDayKeysMono`, the formal reading of "no two
events collide across a bucket boundary ambiguously") is assumed. -/
theorem C8_sum_invariant (tz : Int → Int) (now : Int) (first : HistoryItem)
    (rest : List HistoryItem) (g : String)
    (hg : g = "15m" ∨ g = "1h" ∨ g = "1d")
    (hsorted : sortedByT (first :: rest))
    (hkeys : chartDayKeysMono tz now first rest) :
    ((processChartData tz now (first :: rest) g "all").map (fun p => p.total)).sum =
      ((first :: rest).map evTotal).sum := by
  have hfe : first.t ≤ chartEndTime now first rest :=
    le_trans (sorted_first_le_last first rest hsorted) (le_max_right _ _)
  have hlowt : ∀ e ∈ (first :: rest), first.t ≤ e.t := sorted_first_le first rest hsorted
  have hupt : ∀ e ∈ (first :: rest), e.t ≤ chartEndTime now first rest := by
    intro e he
    exact le_trans (sorted_le_last first rest hsorted e he) (le_max_right _ _)
  rcases hg with hg | hg | hg
  · subst hg
    have hunfold : processChartData tz now (first :: rest) "15m" "all" =
        fixedBuckets "all" (chartInterval "15m")
          (Int.fdiv (chartEndTime now first rest) (chartInterval "15m") * chartInterval "15m")
          ((Int.fdiv (Int.fdiv (chartEndTime now first rest) (chartInterval "15m") *
              chartInterval "15m" -
              Int.fdiv first.t (chartInterval "15m") * chartInterval "15m")
            (chartInterval "15m")).toNat + 1)
          (Int.fdiv first.t (chartInterval "15m") * chartInterval "15m") (first :: rest) := by
      simp only [processChartData]
      rw [if_neg (by decide : ¬ ("15m" = "1d"))]
    rw [hunfold]
    exact fixedPath_sum _ (chartInterval_pos _) _ _ hfe _ hsorted hlowt hupt
  · subst hg
    have hunfold : processChartData tz now (first :: rest) "1h" "all" =
        fixedBuckets "all" (chartInterval "1h")
          (Int.fdiv (chartEndTime now first rest) (chartInterval "1h") * chartInterval "1h")
          ((Int.fdiv (Int.fdiv (chartEndTime now first rest) (chartInterval "1h") *
              chartInterval "1h" -
              Int.fdiv first.t (chartInterval "1h") * chartInterval "1h")
            (chartInterval "1h")).toNat + 1)
          (Int.fdiv first.t (chartInterval "1h") * chartInterval "1h") (first :: rest) := by
      simp only [processChartData]
      rw [if_neg (by decide : ¬ ("1h" = "1d"))]
    rw [hunfold]
    exact fixedPath_sum _ (chartInterval_pos _) _ _ hfe _ hsorted hlowt hupt
  · subst hg
    set segs := chartDaySegments tz now first rest with hsegs
    set sk := dayKeyAt segs first.t with hsk
    set ek := dayKeyAt segs (chartEndTime now first rest) with hek
    have hunfold : processChartData tz now (first :: rest) "1d" "all" =
        dayBuckets "all" segs ek ((ek + 1 - sk).toNat) sk (first :: rest) 0 := by
      simp only [processChartData, if_true]
      rfl
    rw [hunfold]
    have hday : (0 : Int) < DAY_MS := DAY_MS_pos
    have hab : first.t - DAY_MS ≤ chartEndTime now first rest + DAY_MS := by omega
    obtain ⟨hwfsegs, hstart, hstop⟩ :=
      buildOffsetSegments_wf tz (first.t - DAY_MS) (chartEndTime now first rest + DAY_MS) hab
    have hsegseq : segs =
        buildOffsetSegments tz (first.t - DAY_MS) (chartEndTime now first rest + DAY_MS) := rfl
    rw [← hsegseq] at hwfsegs hstart hstop
    have hrange : ∀ e ∈ (first :: rest), segsStart segs ≤ e.t ∧ e.t < segsStop segs := by
      intro e he
      have h1 := hlowt e he
      have h2 := hupt e he
      rw [hstart, hstop]
      omega
    have hpairkeys := (List.chain'_iff_pairwise.mp hkeys :
      List.Pairwise (fun a b => a ≤ b)
        (((first :: rest).map (fun e => dayKeyAt segs e.t)) ++ [ek]))
    obtain ⟨hpk, _, hcross⟩ := List.pairwise_append.mp hpairkeys
    have hub : ∀ e ∈ (first :: rest), dayKeyAt segs e.t ≤ ek := by
      intro e he
      exact hcross _ (List.mem_map_of_mem _ he) ek (by simp)
    have hlb : ∀ e ∈ (first :: rest), sk ≤ dayKeyAt segs e.t := by
      intro e he
      simp only [List.mem_cons] at he
      rcases he with he | he
      · rw [he]
      · have hpk' := hpk
        rw [List.map_cons] at hpk'
        exact (List.pairwise_cons.mp hpk').1 _ (List.mem_map_of_mem _ he)
    have hkp : List.Pairwise (fun x y => dayKeyAt segs x.t ≤ dayKeyAt segs y.t)
        (first :: rest) := List.pairwise_map.mp hpk
    have hse : sk ≤ ek := hub first (by simp)
    have hm : ((ek - sk).toNat : Int) = ek - sk := Int.toNat_of_nonneg (by omega)
    have hfuel : (ek + 1 - sk).toNat = (ek - sk).toNat + 1 := by omega
    have hlen : 0 < segs.length := List.length_pos.mpr hwfsegs.1
    have hstart0 : (first :: rest) ≠ [] →
        (segs.getD 0 default).start ≤ (first :: rest).headI.t := by
      intro _
      rw [← segsStart_eq_getD_zero segs hwfsegs.1]
      have := (hrange first (by simp)).1
      simpa [List.headI] using this
    have hkeybounds : ∀ e ∈ (first :: rest), sk ≤ dayKeyAt segs e.t ∧
        dayKeyAt segs e.t ≤ sk + ((ek - sk).toNat : Int) := by
      intro e he
      rw [hm]
      exact ⟨hlb e he, by have := hub e he; omega⟩
    have hdd := dayBuckets_all_sum segs hwfsegs (ek - sk).toNat sk (first :: rest) 0
      hsorted hrange hkeybounds hkp hlen hstart0
    rw [hfuel]
    have hendk : sk + ((ek - sk).toNat : Int) = ek := by omega
    rw [hendk] at hdd
    exact hdd

/-- Witness for C8 with day granularity on a two-event sorted history. -/
theorem C8_witness :
    (("1d" = "15m" ∨ "1d" = "1h" ∨ "1d" = "1d") ∧
      sortedByT [⟨0, some 1, none, 0, none⟩, ⟨3600000, some 2, none, 1, none⟩] ∧
      chartDayKeysMono (tzConst 0) 7200000 ⟨0, some 1, none, 0, none⟩
        [⟨3600000, some 2, none, 1, none⟩]) ∧
    ((processChartData (tzConst 0) 7200000
        [⟨0, some 1, none, 0, none⟩, ⟨3600000, some 2, none, 1, none⟩] "1d" "all").map
          (fun p => p.total)).sum =
      ([(⟨0, some 1, none, 0, none⟩ : HistoryItem),
        ⟨3600000, some 2, none, 1, none⟩].map evTotal).sum :=
  ⟨⟨Or.inr (Or.inr rfl), by decide, by decide⟩,
    C8_sum_invariant (tzConst 0) 7200000 ⟨0, some 1, none, 0, none⟩
      [⟨3600000, some 2, none, 1, none⟩] "1d" (Or.inr (Or.inr rfl)) (by decide) (by decide)⟩

lemma statsStepSpec_proj_congr (segs : List OffsetSegment)
    (o1 t1 w1 tk wk : Int) (A B : StatsAcc) (item : HistoryItem)
    (h : statsProj A = statsProj B) :
    statsProj (statsStepSpec segs o1 t1 w1 tk wk A item) =
      statsProj (statsStepSpec segs o1 t1 w1 tk wk B item) := by
  cases A
  cases B
  simp only [statsProj, Prod.mk.injEq] at h
  obtain ⟨h1, h2, h3, h4, h5⟩ := h
  simp only [statsStepSpec, statsProj, h1, h2, h3, h4, h5]

lemma specFold_proj (segs : List OffsetSegment) (o1 t1 w1 tk wk : Int) :
    ∀ (hist : List HistoryItem) (A B : StatsAcc), statsProj A = statsProj B →
      statsProj (hist.foldl (statsStepSpec segs o1 t1 w1 tk wk) A) =
        statsProj (hist.foldl (statsStepSpec segs o1 t1 w1 tk wk) B) := by
  intro hist
  induction hist with
  | nil => intro A B h; exact h
  | cons item r ih =>
    intro A B h
    simp only [List.foldl_cons]
    exact ih _ _ (statsStepSpec_proj_congr segs o1 t1 w1 tk wk A B item h)

lemma statsFold_eq (segs : List OffsetSegment) (hwf : SegsWF segs)
    (o1 t1 w1 tk wk : Int) :
    ∀ (hist : List HistoryItem) (acc : StatsAcc),
      sortedByT hist →
      (∀ e ∈ hist, segsStart segs ≤ e.t ∧ e.t < segsStop segs) →
      acc.oi < segs.length →
      (hist ≠ [] → (segs.getD acc.oi default).start ≤ hist.headI.t) →
      statsProj (hist.foldl (statsStep segs o1 t1 w1 tk wk) acc) =
        statsProj (hist.foldl (statsStepSpec segs o1 t1 w1 tk wk) acc) := by
  intro hist
  induction hist with
  | nil => intro acc _ _ _ _; rfl
  | cons item r ih =>
    intro acc hsorted hrange hoi hstart
    have hitemrange := hrange item (by simp)
    have hspec := getOffsetForTs_spec item.t segs hwf acc.oi hoi
      (hstart (by simp)) hitemrange.2
    obtain ⟨hoff, hjlen, hjstart, hjstop, hjge⟩ := hspec
    have hproj : statsProj (statsStep segs o1 t1 w1 tk wk acc item) =
        statsProj (statsStepSpec segs o1 t1 w1 tk wk acc item) := by
      simp only [statsStep, statsStepSpec, statsProj, hoff]
    have hoistep : (statsStep segs o1 t1 w1 tk wk acc item).oi =
        (getOffsetForTs item.t segs acc.oi).2 := rfl
    have hstartr : r ≠ [] →
        (segs.getD (statsStep segs o1 t1 w1 tk wk acc item).oi default).start ≤
          r.headI.t := by
      intro hrne
      rw [hoistep]
      cases r with
      | nil => exact absurd rfl hrne
      | cons x r' =>
        have : item.t ≤ x.t := (List.chain'_cons.mp hsorted).1
        simp only [List.headI]
        omega
    simp only [List.foldl_cons]
    rw [ih (statsStep segs o1 t1 w1 tk wk acc item) (List.Chain'.tail hsorted)
      (fun e he => hrange e (by simp [he])) (by rw [hoistep]; exact hjlen) hstartr]
    exact specFold_proj segs o1 t1 w1 tk wk r _ _ hproj

lemma statsAcc_impl_eq_spec (tz : Int → Int) (now : Int) (first : HistoryItem)
    (rest : List HistoryItem) (hsorted : sortedByT (first :: rest)) :
    statsProj (statsAccImpl tz now first rest) =
      statsProj (statsAccSpec tz now first rest) := by
  have hw : (0 : Int) < WEEK_MS := by norm_num [WEEK_MS, DAY_MS, HOUR_MS, MINUTE_MS]
  have hab : min first.t now - WEEK_MS ≤ max (lastItemOf first rest).t now + WEEK_MS := by
    have h1 : min first.t now ≤ now := min_le_right _ _
    have h2 : now ≤ max (lastItemOf first rest).t now := le_max_right _ _
    omega
  obtain ⟨hwf, hstart, hstop⟩ :=
    buildOffsetSegments_wf tz (min first.t now - WEEK_MS)
      (max (lastItemOf first rest).t now + WEEK_MS) hab
  have hsegseq : statsSegments tz now first rest =
      buildOffsetSegments tz (min first.t now - WEEK_MS)
        (max (lastItemOf first rest).t now + WEEK_MS) := rfl
  rw [← hsegseq] at hwf hstart hstop
  have hrange : ∀ e ∈ (first :: rest),
      segsStart (statsSegments tz now first rest) ≤ e.t ∧
      e.t < segsStop (statsSegments tz now first rest) := by
    intro e he
    have h1 : first.t ≤ e.t := sorted_first_le first rest hsorted e he
    have h2 : e.t ≤ (lastItemOf first rest).t := sorted_le_last first rest hsorted e he
    have h3 : min first.t now ≤ first.t := min_le_left _ _
    have h4 : (lastItemOf first rest).t ≤ max (lastItemOf first rest).t now :=
      le_max_left _ _
    rw [hstart, hstop]
    omega
  have hlen : 0 < (statsSegments tz now first rest).length := List.length_pos.mpr hwf.1
  have hstart0 : (first :: rest) ≠ [] →
      ((statsSegments tz now first rest).getD 0 default).start ≤
        (first :: rest).headI.t := by
    intro _
    rw [← segsStart_eq_getD_zero _ hwf.1]
    have := (hrange first (by simp)).1
    simpa [List.headI] using this
  exact statsFold_eq (statsSegments tz now first rest) hwf _ _ _ _ _
    (first :: rest) ⟨0, 0, 0, [], [], 0⟩ hsorted hrange hlen hstart0

/-- Claim C5: in `processStats`, the daily median is the per-day historical
totals' median (computed with stateless per-event offsets, equal to the
implementation's cursor-based accumulation on sorted input) rounded with
`Math.round`; `todayGrowth` is 100 when that median is 0 and
`round(((today - dailyMedian) / dailyMedian) * 100)` otherwise; the
identical formula holds for the week; and `calculateMedian` of a list is 0
when empty, the central value of an ascending reordering when odd-length,
and the mean of the two central values when even-length. -/
theorem C5_stats_growth_median (tz : Int → Int) (now : Int) (first : HistoryItem)
    (rest : List HistoryItem) (hsorted : sortedByT (first :: rest)) :
    (processStats tz now (first :: rest)).todayMedian =
      jsRound (calculateMedian (valuesQ (statsAccSpec tz now first rest).daily)) ∧
    (processStats tz now (first :: rest)).weekMedian =
      jsRound (calculateMedian (valuesQ (statsAccSpec tz now first rest).weekly)) ∧
    (processStats tz now (first :: rest)).today = (statsAccSpec tz now first rest).today ∧
    (processStats tz now (first :: rest)).thisWeek =
      (statsAccSpec tz now first rest).thisWeek ∧
    (processStats tz now (first :: rest)).todayGrowth =
      (if (processStats tz now (first :: rest)).todayMedian = 0 then 100
       else jsRound ((((processStats tz now (first :: rest)).today : ℚ) -
         ((processStats tz now (first :: rest)).todayMedian : ℚ)) /
         ((processStats tz now (first :: rest)).todayMedian : ℚ) * 100)) ∧
    (processStats tz now (first :: rest)).weekGrowth =
      (if (processStats tz now (first :: rest)).weekMedian = 0 then 100
       else jsRound ((((processStats tz now (first :: rest)).thisWeek : ℚ) -
         ((processStats tz now (first :: rest)).weekMedian : ℚ)) /
         ((processStats tz now (first :: rest)).weekMedian : ℚ) * 100)) ∧
    (∀ l : List ℚ, ∃ s : List ℚ, s.Perm l ∧ s.Sorted (fun a b => a ≤ b) ∧
      calculateMedian l = (if l = [] then 0
        else if s.length % 2 = 1 then s.getD (s.length / 2) 0
        else (s.getD (s.length / 2 - 1) 0 + s.getD (s.length / 2) 0) / 2)) := by
  have hproj := statsAcc_impl_eq_spec tz now first rest hsorted
  have hdaily : (statsAccImpl tz now first rest).daily =
      (statsAccSpec tz now first rest).daily := congrArg (fun p => p.2.2.2.1) hproj
  have hweekly : (statsAccImpl tz now first rest).weekly =
      (statsAccSpec tz now first rest).weekly := congrArg (fun p => p.2.2.2.2) hproj
  have htoday : (statsAccImpl tz now first rest).today =
      (statsAccSpec tz now first rest).today := congrArg (fun p => p.2.1) hproj
  have hweek : (statsAccImpl tz now first rest).thisWeek =
      (statsAccSpec tz now first rest).thisWeek := congrArg (fun p => p.2.2.1) hproj
  refine ⟨?_, ?_, ?_, ?_, ?_, ?_, ?_⟩
  · show jsRound (calculateMedian (valuesQ (statsAccImpl tz now first rest).daily)) = _
    rw [hdaily]
  · show jsRound (calculateMedian (valuesQ (statsAccImpl tz now first rest).weekly)) = _
    rw [hweekly]
  · exact htoday
  · exact hweek
  · rfl
  · rfl
  · intro l
    refine ⟨List.insertionSort (fun a b => a ≤ b) l, List.perm_insertionSort _ l,
      List.sorted_insertionSort _ l, ?_⟩
    unfold calculateMedian
    rfl

/-- Witness for C5 on a two-event sorted history a week before `now`. -/
theorem C5_witness :
    sortedByT [⟨0, some 1, none, 0, none⟩, ⟨3600000, some 2, none, 1, none⟩] ∧
    ((processStats (tzConst 0) 604800000
        [⟨0, some 1, none, 0, none⟩, ⟨3600000, some 2, none, 1, none⟩]).todayMedian =
      jsRound (calculateMedian (valuesQ (statsAccSpec (tzConst 0) 604800000
        ⟨0, some 1, none, 0, none⟩ [⟨3600000, some 2, none, 1, none⟩]).daily)) ∧
     (processStats (tzConst 0) 604800000
        [⟨0, some 1, none, 0, none⟩, ⟨3600000, some 2, none, 1, none⟩]).weekMedian =
      jsRound (calculateMedian (valuesQ (statsAccSpec (tzConst 0) 604800000
        ⟨0, some 1, none, 0, none⟩ [⟨3600000, some 2, none, 1, none⟩]).weekly)) ∧
     (processStats (tzConst 0) 604800000
        [⟨0, some 1, none, 0, none⟩, ⟨3600000, some 2, none, 1, none⟩]).today =
      (statsAccSpec (tzConst 0) 604800000 ⟨0, some 1, none, 0, none⟩
        [⟨3600000, some 2, none, 1, none⟩]).today ∧
     (processStats (tzConst 0) 604800000
        [⟨0, some 1, none, 0, none⟩, ⟨3600000, some 2, none, 1, none⟩]).thisWeek =
      (statsAccSpec (tzConst 0) 604800000 ⟨0, some 1, none, 0, none⟩
        [⟨3600000, some 2, none, 1, none⟩]).thisWeek ∧
     (processStats (tzConst 0) 604800000
        [⟨0, some 1, none, 0, none⟩, ⟨3600000, some 2, none, 1, none⟩]).todayGrowth =
      (if (processStats (tzConst 0) 604800000
          [⟨0, some 1, none, 0, none⟩, ⟨3600000, some 2, none, 1, none⟩]).todayMedian = 0
       then 100
       else jsRound ((((processStats (tzConst 0) 604800000
           [⟨0, some 1, none, 0, none⟩, ⟨3600000, some 2, none, 1, none⟩]).today : ℚ) -
         (((processStats (tzConst 0) 604800000
           [⟨0, some 1, none, 0, none⟩, ⟨3600000, some 2, none, 1, none⟩]).todayMedian : Int) : ℚ)) /
         (((processStats (tzConst 0) 604800000
           [⟨0, some 1, none, 0, none⟩, ⟨3600000, some 2, none, 1, none⟩]).todayMedian : Int) : ℚ) * 100)) ∧
     (processStats (tzConst 0) 604800000
        [⟨0, some 1, none, 0, none⟩, ⟨3600000, some 2, none, 1, none⟩]).weekGrowth =
      (if (processStats (tzConst 0) 604800000
          [⟨0, some 1, none, 0, none⟩, ⟨3600000, some 2, none, 1, none⟩]).weekMedian = 0
       then 100
       else jsRound ((((processStats (tzConst 0) 604800000
           [⟨0, some 1, none, 0, none⟩, ⟨3600000, some 2, none, 1, none⟩]).thisWeek : ℚ) -
         (((processStats (tzConst 0) 604800000
           [⟨0, some 1, none, 0, none⟩, ⟨3600000, some 2, none, 1, none⟩]).weekMedian : Int) : ℚ)) /
         (((processStats (tzConst 0) 604800000
           [⟨0, some 1, none, 0, none⟩, ⟨3600000, some 2, none, 1, none⟩]).weekMedian : Int) : ℚ) * 100)) ∧
     (∀ l : List ℚ, ∃ s : List ℚ, s.Perm l ∧ s.Sorted (fun a b => a ≤ b) ∧
       calculateMedian l = (if l = [] then 0
         else if s.length % 2 = 1 then s.getD (s.length / 2) 0
         else (s.getD (s.length / 2 - 1) 0 + s.getD (s.length / 2) 0) / 2))) :=
  ⟨by decide,
    C5_stats_growth_median (tzConst 0) 604800000 ⟨0, some 1, none, 0, none⟩
      [⟨3600000, some 2, none, 1, none⟩] (by decide)⟩

lemma heatFold_cell_length (cutoff : Int) (segs : List OffsetSegment)
    (mk wc : Int) (filter : String) (n : Nat) :
    ∀ (hist : List HistoryItem) (acc : HeatAcc),
      (∀ d h : Int, (acc.hourlyWeekSums d h).length = n) →
      ∀ d h : Int,
        ((hist.foldl (heatStep cutoff segs mk wc filter) acc).hourlyWeekSums d h).length
          = n := by
  intro hist
  induction hist with
  | nil => intro acc hinv d h; exact hinv d h
  | cons item r ih =>
    intro acc hinv d h
    simp only [List.foldl_cons]
    apply ih
    intro d' h'
    unfold heatStep
    by_cases hskip : item.t ≤ cutoff
    · rw [if_pos hskip]; exact hinv d' h'
    · rw [if_neg hskip]
      simp only
      by_cases hguard : 0 ≤ weekKeyOfLocal (item.t +
          (getOffsetForTs item.t segs acc.oi).1) - mk ∧
          weekKeyOfLocal (item.t + (getOffsetForTs item.t segs acc.oi).1) - mk < wc
      · rw [if_pos hguard]
        by_cases hcell : d' = mondayIndexOf (item.t + (getOffsetForTs item.t segs acc.oi).1) ∧
            h' = hourOfLocal (item.t + (getOffsetForTs item.t segs acc.oi).1)
        · rw [if_pos hcell]
          unfold listInc
          rw [List.length_set]
          exact hinv d' h'
        · rw [if_neg hcell]
          exact hinv d' h'
      · rw [if_neg hguard]
        exact hinv d' h'

/-- Claim C4: every weekday-hour cell's weekly sample vector is pre-sized to
`weekCount` and stays that length (weeks contributing no events remain zero
samples), the median matrix entry is `calculateMedian` of that full vector;
concretely, with `weekCount = 4` and per-week sums 10 and 0 observed in two
weeks, the cell median is the median of `[0, 0, 0, 10]`, which is 0, while
the median of only the observed samples `[0, 10]` would be 5. -/
theorem C4_heatmap_median_zero_weeks (tz : Int → Int) (now : Int) (filter : String)
    (history : List HistoryItem) (d h : Int) :
    ((heatAcc tz now filter history).hourlyWeekSums d h).length =
      (heatWeekCount tz now history).toNat ∧
    ((heatMinMax (heatCutoff now) history).1 ≠ MAX_SAFE_INTEGER →
      (processHeatMaps tz now history filter).hourlyMedian =
        (List.range 7).map (fun dd => (List.range 24).map (fun hh =>
          round1 (calculateMedian (((heatAcc tz now filter history).hourlyWeekSums
            (dd : Int) (hh : Int)).map (fun v => (v : ℚ))))))) ∧
    heatWeekCount (tzConst 0) 2196000000
      [⟨381600000, some 10, none, 0, none⟩, ⟨2196000000, some 0, none, 0, none⟩] = 4 ∧
    (heatAcc (tzConst 0) 2196000000 "all"
      [⟨381600000, some 10, none, 0, none⟩,
        ⟨2196000000, some 0, none, 0, none⟩]).hourlyWeekSums 0 10 = [10, 0, 0, 0] ∧
    round1 (calculateMedian (((heatAcc (tzConst 0) 2196000000 "all"
      [⟨381600000, some 10, none, 0, none⟩,
        ⟨2196000000, some 0, none, 0, none⟩]).hourlyWeekSums 0 10).map
      (fun v => (v : ℚ)))) = 0 ∧
    calculateMedian [(0 : ℚ), 10] = 5 := by
  have hcell : (heatAcc (tzConst 0) 2196000000 "all"
      [⟨381600000, some 10, none, 0, none⟩,
        ⟨2196000000, some 0, none, 0, none⟩]).hourlyWeekSums 0 10 = [10, 0, 0, 0] := by
    decide
  refine ⟨?_, ?_, by decide, hcell, ?_, ?_⟩
  · apply heatFold_cell_length
    intro d' h'
    exact List.length_replicate _ _
  · intro hne
    unfold processHeatMaps
    rw [if_neg hne]
  · rw [hcell]
    norm_num [calculateMedian, round1, jsRound, List.insertionSort, List.orderedInsert,
      List.cons_ne_nil, ne_eq, reduceCtorEq]
  · norm_num [calculateMedian, List.insertionSort, List.orderedInsert,
      List.cons_ne_nil, ne_eq, reduceCtorEq]

/-- Witness for C4 on the concrete four-week scenario. -/
theorem C4_witness :
    ((heatMinMax (heatCutoff 2196000000)
        [⟨381600000, some 10, none, 0, none⟩, ⟨2196000000, some 0, none, 0, none⟩]).1 ≠
      MAX_SAFE_INTEGER) ∧
    ((heatAcc (tzConst 0) 2196000000 "all"
        [⟨381600000, some 10, none, 0, none⟩,
          ⟨2196000000, some 0, none, 0, none⟩]).hourlyWeekSums 0 10).length =
      (heatWeekCount (tzConst 0) 2196000000
        [⟨381600000, some 10, none, 0, none⟩, ⟨2196000000, some 0, none, 0, none⟩]).toNat ∧
    (processHeatMaps (tzConst 0) 2196000000
        [⟨381600000, some 10, none, 0, none⟩, ⟨2196000000, some 0, none, 0, none⟩]
        "all").hourlyMedian =
      (List.range 7).map (fun dd => (List.range 24).map (fun hh =>
        round1 (calculateMedian (((heatAcc (tzConst 0) 2196000000 "all"
          [⟨381600000, some 10, none, 0, none⟩,
            ⟨2196000000, some 0, none, 0, none⟩]).hourlyWeekSums
          (dd : Int) (hh : Int)).map (fun v => (v : ℚ)))))) :=
  ⟨by decide,
    (C4_heatmap_median_zero_weeks (tzConst 0) 2196000000 "all"
      [⟨381600000, some 10, none, 0, none⟩, ⟨2196000000, some 0, none, 0, none⟩] 0 10).1,
    (C4_heatmap_median_zero_weeks (tzConst 0) 2196000000 "all"
      [⟨381600000, some 10, none, 0, none⟩, ⟨2196000000, some 0, none, 0, none⟩] 0 10).2.1
      (by decide)⟩
